import Mathlib

/-!
Verification of the streaming / tool-call orchestration core of ask_rs
(src/api.rs, src/tools.rs, src/conversation.rs), as a shallow embedding.

Rust machine strings are modelled as Lean `String` (a list of unicode
scalar values); Rust byte-level operations (`str::len`, byte slicing
`&s[..k]`) are modelled by summing `Char.utf8Size`, with `Option` capturing
the panic on a slice index that is not a character boundary.
`serde_json::Value` is modelled by the inductive `Json` below (numbers as
integers: every number occurring in the verified code paths is a small
integer).  The HTTP response body is a stream of byte chunks (`Nat`
values below 256), each decoded separately by a model of
`String::from_utf8_lossy`, as the source does per read.  External library
calls (`serde_json::from_str`, `std::collections::HashMap`'s unspecified
iteration order, the filesystem, the clock) are modelled as explicit
parameters.
-/

/-- Model of `serde_json::Value`. -/
inductive Json where
  | null
  | bool (b : Bool)
  | num (n : Int)
  | str (s : String)
  | arr (elems : List Json)
  | obj (fields : List (String × Json))

/-- `Value::get(key)` on objects (serde object keys are unique). -/
def Json.getField : Json → String → Option Json
  | .obj fs, k => fs.lookup k
  | _, _ => none

/-- `Value::as_str`. -/
def Json.asStr : Json → Option String
  | .str s => some s
  | _ => none

/-- `Value::as_i64`. -/
def Json.asInt : Json → Option Int
  | .num n => some n
  | _ => none

/-- `Value::as_array`. -/
def Json.asArr : Json → Option (List Json)
  | .arr xs => some xs
  | _ => none

/-- `Value::is_object`-style test. -/
def Json.isObj : Json → Bool
  | .obj _ => true
  | _ => false

/-- Replace the binding for `k` (first occurrence) or append it. -/
def setFieldList (fs : List (String × Json)) (k : String) (v : Json) :
    List (String × Json) :=
  match fs with
  | [] => [(k, v)]
  | (k0, v0) :: rest =>
    if k0 = k then (k0, v) :: rest else (k0, v0) :: setFieldList rest k v

/-- serde's `value[key] = v` index-assignment on objects (non-objects are
left unchanged; in the embedded code paths the receiver is always an
object, where serde would otherwise panic). -/
def Json.setField : Json → String → Json → Json
  | .obj fs, k, v => .obj (setFieldList fs k v)
  | j, _, _ => j

/-- `value.get(k).and_then(|x| x.as_str())`. -/
def getStrField (j : Json) (k : String) : Option String :=
  (j.getField k).bind Json.asStr

/-- Rust `str::len`: the length in UTF-8 bytes. -/
def rustLen (s : String) : Nat := (s.data.map Char.utf8Size).sum

/-- Byte-prefix of a character list: `some` of the characters covering the
first `k` UTF-8 bytes when byte index `k` is a character boundary (and not
past the end), `none` otherwise — `none` models the Rust panic raised by
`&s[..k]` at a non-boundary or out-of-range index. -/
def byteTake? : List Char → Nat → Option (List Char)
  | _, 0 => some []
  | [], _ + 1 => none
  | c :: cs, k + 1 =>
    if c.utf8Size ≤ k + 1 then (byteTake? cs (k + 1 - c.utf8Size)).map (c :: ·)
    else none

/-- Rust byte slicing `&s[..k]` (with `none` for the boundary panic). -/
def byteSlice? (s : String) (k : Nat) : Option String :=
  (byteTake? s.data k).map String.mk

/-- Rust `str::lines().count()`: one line per `\n`-separated segment, with
no trailing empty line when the text ends in `\n`. -/
def rustLinesCount (s : String) : Nat :=
  if s.data = [] then 0
  else if s.data.getLast? = some '\n' then s.data.count '\n'
  else s.data.count '\n' + 1

/-- Whitespace as stripped by `str::trim` (the code only meets ASCII). -/
def rustIsWhitespace (c : Char) : Bool :=
  c = ' ' || c = '\n' || c = '\t' || c = '\r'

/-- Rust `str::trim`. -/
def rustTrim (s : String) : String :=
  String.mk (((s.data.dropWhile rustIsWhitespace).reverse.dropWhile
    rustIsWhitespace).reverse)

/-- Executable prefix test on character lists. -/
def isPrefixChars : List Char → List Char → Bool
  | [], _ => true
  | _ :: _, [] => false
  | a :: as, b :: bs => a = b && isPrefixChars as bs

/-- Executable substring test on character lists. -/
def containsSub (needle : List Char) : List Char → Bool
  | [] => isPrefixChars needle []
  | c :: cs => isPrefixChars needle (c :: cs) || containsSub needle cs

/-- Rust `str::contains` with a string pattern. -/
def rustContains (hay needle : String) : Bool :=
  containsSub needle.data hay.data

/-- `LARGE_OUTPUT_THRESHOLD` from src/api.rs. -/
def LARGE_OUTPUT_THRESHOLD : Nat := 32768

/-- The temp-file path `env::temp_dir().join(format!("tool_output_{}_{}.txt",
tool_name, timestamp))`, as displayed. -/
def tempFilePath (tempDir toolName : String) (timestamp : Nat) : String :=
  tempDir ++ "/" ++ "tool_output_" ++ toolName ++ "_" ++ Nat.repr timestamp
    ++ ".txt"

/-- The message returned by `handle_large_tool_output` after a successful
temp-file write (the `format!` literal of src/api.rs, with Rust's
line-continuation backslashes resolved). -/
def successSpillMessage (byteCount lineCount : Nat) (path preview : String) :
    String :=
  "Output too large (" ++ Nat.repr byteCount ++ " bytes, "
    ++ Nat.repr lineCount ++ " lines). Written to temp file: " ++ path
    ++ "\n\nTo read the contents, use the read_file tool with this path.\nPreview (first 2k chars):\n"
    ++ preview ++ "\n[...]"

/-- The fallback message returned when the temp-file write fails. -/
def failureSpillMessage (byteCount : Nat) (errMsg excerpt : String) : String :=
  "[Output truncated due to size (" ++ Nat.repr byteCount
    ++ " bytes). Error writing temp file: " ++ errMsg ++ "]\n\n" ++ excerpt

/-- `handle_large_tool_output` from src/api.rs.  The clock, the temp
directory and the outcome of `fs::write` are external effects, passed as
parameters (`writeErr = none` models a successful write, `some e` a write
failure with error text `e`).  The result is `none` exactly when the Rust
code panics (byte slicing at a non-boundary index). -/
def handle_large_tool_output (tool_name output : String) (timestamp : Nat)
    (tempDir : String) (writeErr : Option String) : Option String :=
  if rustLen output ≤ LARGE_OUTPUT_THRESHOLD then some output
  else
    let temp_file := tempFilePath tempDir tool_name timestamp
    match writeErr with
    | none =>
      (byteSlice? output (min (rustLen output) 2000)).map fun preview =>
        successSpillMessage (rustLen output) (rustLinesCount output)
          temp_file preview
    | some e =>
      (byteSlice? output (min (rustLen output) LARGE_OUTPUT_THRESHOLD)).map
        fun excerpt => failureSpillMessage (rustLen output) e excerpt

/-- `Message` from src/conversation.rs. -/
structure Message where
  role : String
  content : Json

/-- `ConversationState` from src/conversation.rs. -/
structure ConversationState where
  model : String
  messages : List Message

/-- The per-index test of `save_conversation`'s `should_truncate` loop:
message `i` has string content longer (in bytes) than the threshold. -/
def shouldTruncateAt (msgs : List Message) (i : Nat) : Bool :=
  match (msgs[i]?).bind (fun m => m.content.asStr) with
  | some text => decide (LARGE_OUTPUT_THRESHOLD < rustLen text)
  | none => false

/-- The body of `save_conversation`'s truncation loop for one message:
string content over the threshold is replaced by its first
`LARGE_OUTPUT_THRESHOLD` bytes plus a `" [truncated]"` marker (`none`
models the byte-slice panic at a non-boundary index). -/
def truncateMessageContent (m : Message) : Option Message :=
  match m.content.asStr with
  | some text =>
    if LARGE_OUTPUT_THRESHOLD < rustLen text then
      (byteSlice? text LARGE_OUTPUT_THRESHOLD).map fun p =>
        { m with content := .str (p ++ " [truncated]") }
    else some m
  | none => some m

/-- Apply `truncateMessageContent` to the message at index `i`. -/
def modifyMessageAt (msgs : List Message) (i : Nat) : Option (List Message) :=
  match msgs[i]? with
  | some m => (truncateMessageContent m).map fun m2 => msgs.set i m2
  | none => some msgs

/-- `for &i in &indices { ... }` of `save_conversation`. -/
def truncateAtIndices (msgs : List Message) : List Nat → Option (List Message)
  | [] => some msgs
  | i :: rest =>
    match modifyMessageAt msgs i with
    | some msgs2 => truncateAtIndices msgs2 rest
    | none => none

/-- `save_conversation` from src/api.rs.  `confirm` is the answer
`prompt_confirm` would return (it is only consulted when the size check
fires, matching the code).  The first component of the result is the
in-memory `ConversationState` after the call (the Rust function takes it
by `&mut`), the second is the copy that is serialized to the transcript
file; `none` models a panic in the byte slicing. -/
def save_conversation (st : ConversationState) (confirm : Bool) :
    Option (ConversationState × ConversationState) :=
  if 2 ≤ st.messages.length then
    let indices := [st.messages.length - 2, st.messages.length - 1]
    if indices.any (shouldTruncateAt st.messages) then
      if confirm then
        match truncateAtIndices st.messages indices with
        | some msgs2 => some (st, { model := st.model, messages := msgs2 })
        | none => none
      else some (st, st)
    else some (st, st)
  else some (st, st)

-- Bytes of the HTTP response body are modelled as `Nat` values below 256.
-- The decoder below models Rust `String::from_utf8_lossy`, which api.rs:256
-- applies to each read chunk separately: well-formed UTF-8 sequences decode
-- to their scalar values, and each maximal subpart of an ill-formed sequence
-- is replaced by one U+FFFD replacement character (so a multi-byte character
-- split across two chunks decodes to replacement characters).

/-- Decoder step on an empty pending buffer: classify one byte as ASCII, as
the lead byte of a 2-, 3- or 4-byte sequence, or as ill-formed (yielding
one replacement character). -/
def utf8Step0 (b : Nat) : List Char × List Nat :=
  if b < 0x80 then ([Char.ofNat b], [])
  else if (0xC2 ≤ b ∧ b ≤ 0xDF) ∨ (0xE0 ≤ b ∧ b ≤ 0xEF) ∨
      (0xF0 ≤ b ∧ b ≤ 0xF4) then ([], [b])
  else (['�'], [])

/-- Decoder step: `pending` holds the bytes of an incomplete multi-byte
sequence seen so far (the second-byte ranges follow the UTF-8 table with
the E0/ED/F0/F4 restrictions, excluding overlong forms and surrogates).
On an ill-formed continuation the pending maximal subpart becomes one
replacement character and the offending byte is reclassified. -/
def utf8Step (pending : List Nat) (b : Nat) : List Char × List Nat :=
  match pending with
  | [] => utf8Step0 b
  | [l] =>
    if l ≤ 0xDF then
      if 0x80 ≤ b ∧ b ≤ 0xBF then
        ([Char.ofNat ((l - 0xC0) * 0x40 + (b - 0x80))], [])
      else ('�' :: (utf8Step0 b).1, (utf8Step0 b).2)
    else
      if (l = 0xE0 ∧ 0xA0 ≤ b ∧ b ≤ 0xBF) ∨
         (l = 0xED ∧ 0x80 ≤ b ∧ b ≤ 0x9F) ∨
         (l = 0xF0 ∧ 0x90 ≤ b ∧ b ≤ 0xBF) ∨
         (l = 0xF4 ∧ 0x80 ≤ b ∧ b ≤ 0x8F) ∨
         (l ≠ 0xE0 ∧ l ≠ 0xED ∧ l ≠ 0xF0 ∧ l ≠ 0xF4 ∧
           0x80 ≤ b ∧ b ≤ 0xBF) then ([], [l, b])
      else ('�' :: (utf8Step0 b).1, (utf8Step0 b).2)
  | [l, b2] =>
    if l ≤ 0xEF then
      if 0x80 ≤ b ∧ b ≤ 0xBF then
        ([Char.ofNat ((l - 0xE0) * 0x1000 + (b2 - 0x80) * 0x40 +
          (b - 0x80))], [])
      else ('�' :: (utf8Step0 b).1, (utf8Step0 b).2)
    else
      if 0x80 ≤ b ∧ b ≤ 0xBF then ([], [l, b2, b])
      else ('�' :: (utf8Step0 b).1, (utf8Step0 b).2)
  | l :: b2 :: b3 :: _ =>
    if 0x80 ≤ b ∧ b ≤ 0xBF then
      ([Char.ofNat ((l - 0xF0) * 0x40000 + (b2 - 0x80) * 0x1000 +
        (b3 - 0x80) * 0x40 + (b - 0x80))], [])
    else ('�' :: (utf8Step0 b).1, (utf8Step0 b).2)

/-- Fold step of the lossy decoder: accumulated characters plus the
pending incomplete sequence. -/
def utf8FoldStep (acc : List Char × List Nat) (b : Nat) :
    List Char × List Nat :=
  (acc.1 ++ (utf8Step acc.2 b).1, (utf8Step acc.2 b).2)

/-- Rust `String::from_utf8_lossy` on one chunk: decode every byte, then
a non-empty pending sequence at the end of the chunk (a character cut off
by the chunk boundary) becomes one replacement character. -/
def fromUtf8Lossy (bs : List Nat) : List Char :=
  let r := bs.foldl utf8FoldStep (([] : List Char), ([] : List Nat))
  r.1 ++ (match r.2 with
          | [] => []
          | _ :: _ => ['�'])

/-- The standard UTF-8 encoding of one character (what Rust `String`
stores, hence what the provider sends on the wire). -/
def utf8BytesOfChar (c : Char) : List Nat :=
  let n := c.toNat
  if n < 0x80 then [n]
  else if n < 0x800 then [0xC0 + n / 0x40, 0x80 + n % 0x40]
  else if n < 0x10000 then
    [0xE0 + n / 0x1000, 0x80 + n / 0x40 % 0x40, 0x80 + n % 0x40]
  else
    [0xF0 + n / 0x40000, 0x80 + n / 0x1000 % 0x40, 0x80 + n / 0x40 % 0x40,
     0x80 + n % 0x40]

/-- UTF-8 encoding of a character sequence. -/
def utf8EncodeChars : List Char → List Nat
  | [] => []
  | c :: cs => utf8BytesOfChar c ++ utf8EncodeChars cs

/-- UTF-8 encoding of a string (the byte stream a provider emits for
it). -/
def utf8Encode (s : String) : List Nat := utf8EncodeChars s.data

/-- Escape one character as in `serde_json::to_string`. -/
def escapeJsonChar (c : Char) : List Char :=
  if c = '"' then ['\\', '"']
  else if c = '\\' then ['\\', '\\']
  else if c = '\n' then ['\\', 'n']
  else if c = '\r' then ['\\', 'r']
  else if c = '\t' then ['\\', 't']
  else [c]

mutual

/-- Model of `serde_json::to_string` (numbers are integers in this
embedding; control characters other than the common escapes do not occur
in the verified inputs). -/
def jsonSerialize : Json → String
  | .null => "null"
  | .bool b => if b then "true" else "false"
  | .num n => Int.repr n
  | .str s => String.mk ('"' :: (s.data.map escapeJsonChar).flatten ++ ['"'])
  | .arr xs => "[" ++ serializeArr xs ++ "]"
  | .obj fs => "\x7b" ++ serializeObj fs ++ "\x7d"

/-- Comma-separated serialization of array elements. -/
def serializeArr : List Json → String
  | [] => ""
  | [x] => jsonSerialize x
  | x :: y :: rest => jsonSerialize x ++ "," ++ serializeArr (y :: rest)

/-- Comma-separated serialization of object fields. -/
def serializeObj : List (String × Json) → String
  | [] => ""
  | [(k, v)] => jsonSerialize (.str k) ++ ":" ++ jsonSerialize v
  | (k, v) :: f :: rest =>
    jsonSerialize (.str k) ++ ":" ++ jsonSerialize v ++ ","
      ++ serializeObj (f :: rest)

end

/-- The in-progress state of `handle_stream`: accumulated text, the role,
the tool calls pushed so far, and the pending tool-call buffer.  The
buffer models `HashMap<i64, Value>` as an association list in insertion
order; its map *contents* are what the `HashMap` holds, while its
iteration order on drain is unspecified (see `handle_stream`). -/
structure StreamState where
  full_content : String
  role : String
  tool_calls : List Json
  tool_call_buffer : List (Int × Json)

/-- The initial state of `handle_stream`. -/
def initialStreamState (geminiModel : Bool) : StreamState :=
  { full_content := ""
    role := if geminiModel then "model" else ""
    tool_calls := []
    tool_call_buffer := [] }

/-- `StreamResult` from src/api.rs. -/
structure StreamResult where
  role : String
  content : String
  tool_calls : List Json

/-- The entry created by `or_insert_with` on first sight of an index. -/
def defaultToolCallEntry : Json :=
  .obj [("id", .str ""), ("type", .str "function"),
        ("function", .obj [("name", .str ""), ("arguments", .str "")])]

/-- The `if let Some(f) = tc.get("function")` part of the fragment merge
of `handle_stream` (src/api.rs lines 362-370): a `name` string in the
fragment overwrites the entry's `function.name`; an `arguments` string is
appended to the entry's current `function.arguments`. -/
def mergeFunctionStage (e1 f : Json) : Json :=
  let e2 := match getStrField f "name" with
    | some name =>
      e1.setField "function"
        (((e1.getField "function").getD (.obj [])).setField "name"
          (.str name))
    | none => e1
  match getStrField f "arguments" with
  | some args =>
    let current :=
      ((((e2.getField "function").getD (.obj [])).getField
        "arguments").bind Json.asStr).getD ""
    e2.setField "function"
      (((e2.getField "function").getD (.obj [])).setField "arguments"
        (.str (current ++ args)))
  | none => e2

/-- Merge one tool-call delta fragment `tc` into a buffer entry, exactly
as the body of the `for tc in tcs` loop of `handle_stream` (src/api.rs
lines 359-370): an `id` string in the fragment overwrites the entry's id
(then the `function` sub-object is merged by `mergeFunctionStage`). -/
def mergeToolCallDelta (entry tc : Json) : Json :=
  let e1 := match getStrField tc "id" with
    | some id => entry.setField "id" (.str id)
    | none => entry
  match tc.getField "function" with
  | some f => mergeFunctionStage e1 f
  | none => e1

/-- `tool_call_buffer.entry(idx).or_insert_with(default)` followed by the
fragment merge: update the entry for `idx` in place, or create it. -/
def updateBuffer (buf : List (Int × Json)) (idx : Int) (tc : Json) :
    List (Int × Json) :=
  match buf with
  | [] => [(idx, mergeToolCallDelta defaultToolCallEntry tc)]
  | (k, e) :: rest =>
    if k = idx then (k, mergeToolCallDelta e tc) :: rest
    else (k, e) :: updateBuffer rest idx tc

/-- The index a fragment addresses:
`tc.get("index").and_then(|i| i.as_i64()).unwrap_or(0)`. -/
def deltaIndexOf (tc : Json) : Int :=
  ((tc.getField "index").bind Json.asInt).getD 0

/-- Route one tool-call delta fragment into the pending buffer. -/
def applyToolCallDelta (buf : List (Int × Json)) (tc : Json) :
    List (Int × Json) :=
  updateBuffer buf (deltaIndexOf tc) tc

/-- The OpenAI branch of `handle_stream`'s per-event handling. -/
def applyOpenAIEvent (value : Json) (st : StreamState) : StreamState :=
  match (value.getField "choices").bind Json.asArr with
  | some choices =>
    match choices[0]? with
    | some choice =>
      match choice.getField "delta" with
      | some delta =>
        let st1 :=
          if st.role = "" then
            match getStrField delta "role" with
            | some r => { st with role := r }
            | none => st
          else st
        let st2 :=
          match (delta.getField "tool_calls").bind Json.asArr with
          | some tcs =>
            { st1 with
              tool_call_buffer := tcs.foldl applyToolCallDelta
                st1.tool_call_buffer }
          | none => st1
        match getStrField delta "content" with
        | some c => { st2 with full_content := st2.full_content ++ c }
        | none => st2
      | none => st
    | none => st
  | none => st

/-- One Gemini part: a `functionCall` is pushed as a finished tool call
(with a synthesized id `call_{n}`), then any `text` is appended. -/
def applyGeminiPart (st : StreamState) (part : Json) : StreamState :=
  let st1 := match part.getField "functionCall" with
    | some fc =>
      let name := (getStrField fc "name").getD ""
      let args := (fc.getField "args").getD (.obj [])
      { st with
        tool_calls := st.tool_calls ++
          [.obj [("id", .str ("call_" ++ Nat.repr st.tool_calls.length)),
                 ("type", .str "function"),
                 ("function", .obj [("name", .str name),
                                    ("arguments",
                                     .str (jsonSerialize args))])]] }
    | none => st
  match getStrField part "text" with
  | some t => { st1 with full_content := st1.full_content ++ t }
  | none => st1

/-- The Gemini branch of `handle_stream`'s per-event handling. -/
def applyGeminiEvent (value : Json) (st : StreamState) : StreamState :=
  match (value.getField "candidates").bind Json.asArr with
  | some candidates =>
    candidates.foldl
      (fun s cand =>
        match cand.getField "content" with
        | some content =>
          match (content.getField "parts").bind Json.asArr with
          | some parts => parts.foldl applyGeminiPart s
          | none => s
        | none => s)
      st
  | none => st

/-- The inner loop of `handle_stream`: repeatedly extract a line up to and
including the next `\n`.  Returns the list of complete lines and the
leftover buffer (which contains no `\n`). -/
def splitLines : List Char → List (List Char) × List Char
  | [] => ([], [])
  | c :: cs =>
    if c = '\n' then
      let (ls, rest) := splitLines cs
      (['\n'] :: ls, rest)
    else
      match splitLines cs with
      | (l :: ls, rest) => ((c :: l) :: ls, rest)
      | ([], rest) => ([], c :: rest)

/-- Finalization of a stream: default the role (at the `[DONE]` sentinel
the default depends on the provider, at end-of-stream it is always
`"assistant"`, as in src/api.rs lines 269-275 and 410-412) and drain the
pending tool-call buffer into `tool_calls`.  `drainOrder` models the
unspecified iteration order of `HashMap::drain`: it may emit the buffer
entries in any order (theorems about `handle_stream` constrain it only by
`(drainOrder b).Perm b`). -/
def finalizeStream (drainOrder : List (Int × Json) → List (Int × Json))
    (geminiModel atDone : Bool) (st : StreamState) : StreamResult :=
  { role :=
      if st.role = "" then
        if atDone then (if geminiModel then "model" else "assistant")
        else "assistant"
      else st.role
    content := st.full_content
    tool_calls := st.tool_calls
      ++ (drainOrder st.tool_call_buffer).map Prod.snd }

/-- Handling of one extracted line by `handle_stream`: non-`data: ` lines
are ignored, `[DONE]` finalizes and returns, an empty payload is skipped,
otherwise the payload is parsed (`parse` models `serde_json::from_str`)
and a parse failure is silently skipped. -/
def stepLine (drainOrder : List (Int × Json) → List (Int × Json))
    (geminiModel : Bool) (parse : String → Option Json) (st : StreamState)
    (line : String) : StreamState ⊕ StreamResult :=
  if isPrefixChars "data: ".data line.data then
    let json_str := rustTrim (String.mk (line.data.drop 6))
    if json_str = "[DONE]" then
      .inr (finalizeStream drainOrder geminiModel true st)
    else if json_str = "" then .inl st
    else
      match parse json_str with
      | some value =>
        .inl (if geminiModel then applyGeminiEvent value st
              else applyOpenAIEvent value st)
      | none => .inl st
  else .inl st

/-- Process the extracted lines in order, with the early return at the
`[DONE]` sentinel. -/
def processLines (drainOrder : List (Int × Json) → List (Int × Json))
    (geminiModel : Bool) (parse : String → Option Json) (st : StreamState) :
    List String → StreamState ⊕ StreamResult
  | [] => .inl st
  | l :: ls =>
    match stepLine drainOrder geminiModel parse st l with
    | .inl st2 => processLines drainOrder geminiModel parse st2 ls
    | .inr r => .inr r

/-- The chunk-reading loop of `handle_stream`: each chunk is appended to
the carry-over buffer, all complete lines are extracted and processed,
and at end of stream the state is finalized. -/
def runChunks (drainOrder : List (Int × Json) → List (Int × Json))
    (geminiModel : Bool) (parse : String → Option Json) (buffer : List Char)
    (st : StreamState) : List String → StreamResult
  | [] => finalizeStream drainOrder geminiModel false st
  | ch :: rest =>
    let (ls, buf2) := splitLines (buffer ++ ch.data)
    match processLines drainOrder geminiModel parse st (ls.map String.mk) with
    | .inl st2 => runChunks drainOrder geminiModel parse buf2 st2 rest
    | .inr r => r

/-- `handle_stream` from src/api.rs, over the sequence of byte chunks read
from the response body.  Each chunk is decoded separately with
`String::from_utf8_lossy` and appended to the carry-over buffer
(api.rs:256), exactly as in the source — so a byte boundary inside a
multi-byte character corrupts the decoded text.  `parse` models
`serde_json::from_str::<Value>` (an external crate), `drainOrder` the
unspecified iteration order of `HashMap::drain`, and `geminiModel` the
test `provider_settings.model.contains("gemini-")`. -/
def handle_stream (drainOrder : List (Int × Json) → List (Int × Json))
    (geminiModel : Bool) (parse : String → Option Json)
    (chunks : List (List Nat)) : StreamResult :=
  runChunks drainOrder geminiModel parse [] (initialStreamState geminiModel)
    (chunks.map (fun ch => String.mk (fromUtf8Lossy ch)))

/-- Concatenation of stream chunks (the unsplit stream). -/
def joinChunks : List String → String
  | [] => ""
  | c :: cs => c ++ joinChunks cs

/-- `ToolRegistry` from src/tools.rs: a table from tool name to the tool's
`execute` function (`Result<String, String>` becomes `Except`). -/
structure ToolRegistry where
  tools : List (String × (Json → Except String String))

/-- `ToolRegistry::get`. -/
def ToolRegistry.get (reg : ToolRegistry) (name : String) :
    Option (Json → Except String String) :=
  reg.tools.lookup name

/-- `ToolRegistry::execute` from src/tools.rs. -/
def ToolRegistry.execute (reg : ToolRegistry) (name : String) (args : Json) :
    Except String String :=
  match reg.get name with
  | some tool => tool args
  | none => .error ("Unknown tool: " ++ name)

/-- `tool_call.get("function").and_then(|f| f.get("name"))...unwrap_or("")`
from `perform_request_loop`. -/
def toolNameOf (tool_call : Json) : String :=
  (((tool_call.getField "function").bind
    (fun f => f.getField "name")).bind Json.asStr).getD ""

/-- `tool_call.get("id")...unwrap_or("")` from `perform_request_loop`. -/
def toolIdOf (tool_call : Json) : String :=
  ((tool_call.getField "id").bind Json.asStr).getD ""

/-- `tool_call.get("function").and_then(|f| f.get("arguments"))
...unwrap_or("{}")` from `perform_request_loop`. -/
def toolArgsStrOf (tool_call : Json) : String :=
  (((tool_call.getField "function").bind
    (fun f => f.getField "arguments")).bind Json.asStr).getD "\x7b\x7d"

/-- The body of `perform_request_loop`'s `for tool_call in ...` loop for
one finalized tool call: extract name/id/arguments, parse the arguments
(`parse` models `serde_json::from_str`, with the `json!({})` fallback),
execute via the registry, wrap errors as `"Error: ..."`, route large
output through `handle_large_tool_output`, and build the `tool`-role
result message.  `none` models a panic inside
`handle_large_tool_output`. -/
def processToolCall (reg : ToolRegistry) (parse : String → Option Json)
    (timestamp : Nat) (tempDir : String) (writeErr : Option String)
    (tool_call : Json) : Option Message :=
  let tool_name := toolNameOf tool_call
  let tool_id := toolIdOf tool_call
  let args_str := toolArgsStrOf tool_call
  let args := (parse args_str).getD (.obj [])
  let result := reg.execute tool_name args
  let result_content :=
    match result with
    | .ok output =>
      handle_large_tool_output tool_name output timestamp tempDir writeErr
    | .error err => some ("Error: " ++ err)
  result_content.map fun rc =>
    { role := "tool"
      content := .obj [("tool_call_id", .str tool_id),
                       ("content", .str rc)] }

/-- The whole tool-execution loop of `perform_request_loop`: process each
finalized tool call in order, appending the result messages to the
conversation's message list. -/
def executeToolCalls (reg : ToolRegistry) (parse : String → Option Json)
    (timestamp : Nat) (tempDir : String) (writeErr : Option String) :
    List Json → List Message → Option (List Message)
  | [], msgs => some msgs
  | tc :: rest, msgs =>
    match processToolCall reg parse timestamp tempDir writeErr tc with
    | some m =>
      executeToolCalls reg parse timestamp tempDir writeErr rest
        (msgs ++ [m])
    | none => none

/-- The reasoning-model test of `perform_request_loop` (src/api.rs lines
88-90): the model name contains `"o"` and `"-mini"` on an `"openai"` host,
or the model name contains `"gpt-5"`. -/
def is_reasoning_model (model host : String) : Bool :=
  (rustContains model "o" && rustContains model "-mini"
    && rustContains host "openai")
  || rustContains model "gpt-5"

/-- The OpenAI-style request body of `perform_request_loop` (src/api.rs
lines 74-103): the base fields, then `max_tokens`/`temperature` added
exactly under the code's condition
`!is_reasoning_model || !host.contains("openai")`, then the `user` field
unless the provider is `"mistral"`, then the advertised tools when a
registry is passed.  The code reads the model name from
`conversation_state.model` for the body field and from
`provider_settings.model` for the exception test; a session has a single
model, modelled by the one `model` parameter.  `messages`, `max_tokens`,
`temperature`, `userName` and `tools` stand for the serialized
conversation, the settings values and the advertised tool list. -/
def build_openai_body (model host provider : String) (messages : Json)
    (max_tokens temperature : Json) (userName : String)
    (tools : Option Json) : Json :=
  let body := Json.obj [("messages", messages), ("model", .str model),
                        ("stream", .bool true)]
  let body :=
    if !is_reasoning_model model host || !rustContains host "openai" then
      (body.setField "max_tokens" max_tokens).setField "temperature"
        temperature
    else body
  let body :=
    if provider ≠ "mistral" then body.setField "user" (.str userName)
    else body
  match tools with
  | some t => body.setField "tools" t
  | none => body

/-- Spec-side notion (§4.5/§8): the first `n` *characters* of a string.
This follows the spec's words ("exactly the first 2000 characters"), to be
compared with the code's byte-based slice. -/
def specFirstChars (s : String) (n : Nat) : String :=
  String.mk (s.data.take n)

/-- The first scenario payload of spec §8 (the JSON text after
`data: `). -/
def scenarioPayload1 : String :=
  "\x7b\"choices\":[\x7b\"delta\":\x7b\"role\":\"assistant\",\"tool_calls\":[\x7b\"index\":0,\"id\":\"call_1\",\"function\":\x7b\"name\":\"read_file\",\"arguments\":\"\x7b\\\"pa\"\x7d\x7d]\x7d\x7d]\x7d"

/-- The second scenario payload of spec §8. -/
def scenarioPayload2 : String :=
  "\x7b\"choices\":[\x7b\"delta\":\x7b\"tool_calls\":[\x7b\"index\":0,\"function\":\x7b\"arguments\":\"th\\\":\\\"a.txt\\\"\x7d\"\x7d\x7d]\x7d\x7d]\x7d"

/-- The `serde_json::Value` that `from_str` yields on
`scenarioPayload1`. -/
def scenarioEvent1 : Json :=
  .obj [("choices", .arr [
    .obj [("delta", .obj [
      ("role", .str "assistant"),
      ("tool_calls", .arr [
        .obj [("index", .num 0), ("id", .str "call_1"),
              ("function", .obj [("name", .str "read_file"),
                                 ("arguments", .str "\x7b\"pa")])]])])]])]

/-- The `serde_json::Value` that `from_str` yields on
`scenarioPayload2`. -/
def scenarioEvent2 : Json :=
  .obj [("choices", .arr [
    .obj [("delta", .obj [
      ("tool_calls", .arr [
        .obj [("index", .num 0),
              ("function",
               .obj [("arguments", .str "th\":\"a.txt\"\x7d")])]])])]])]

/-- A concrete instance of the `parse` parameter: `serde_json::from_str`
restricted to the two §8 scenario payloads. -/
def scenarioParse (s : String) : Option Json :=
  if s = scenarioPayload1 then some scenarioEvent1
  else if s = scenarioPayload2 then some scenarioEvent2
  else none

/-- The finalized tool-call request the §8 scenario must produce. -/
def scenarioExpectedCall : Json :=
  .obj [("id", .str "call_1"), ("type", .str "function"),
        ("function", .obj [("name", .str "read_file"),
                           ("arguments", .str "\x7b\"path\":\"a.txt\"\x7d")])]

/-- A single stream event requesting two tool calls (indices 0 and 1) in
one turn, used to exercise the finalization order. -/
def twoCallsPayload : String :=
  "\x7b\"choices\":[\x7b\"delta\":\x7b\"tool_calls\":[\x7b\"index\":0,\"id\":\"call_a\",\"function\":\x7b\"name\":\"tool_a\",\"arguments\":\"\x7b\x7d\"\x7d\x7d,\x7b\"index\":1,\"id\":\"call_b\",\"function\":\x7b\"name\":\"tool_b\",\"arguments\":\"\x7b\x7d\"\x7d\x7d]\x7d\x7d]\x7d"

/-- The `serde_json::Value` of `twoCallsPayload`. -/
def twoCallsEvent : Json :=
  .obj [("choices", .arr [
    .obj [("delta", .obj [
      ("tool_calls", .arr [
        .obj [("index", .num 0), ("id", .str "call_a"),
              ("function", .obj [("name", .str "tool_a"),
                                 ("arguments", .str "\x7b\x7d")])],
        .obj [("index", .num 1), ("id", .str "call_b"),
              ("function", .obj [("name", .str "tool_b"),
                                 ("arguments", .str "\x7b\x7d")])]])])]])]

/-- `serde_json::from_str` restricted to `twoCallsPayload`. -/
def twoCallsParse (s : String) : Option Json :=
  if s = twoCallsPayload then some twoCallsEvent else none

/-- The finalized entry for index 0 of the two-call stream. -/
def twoCallsEntryA : Json :=
  .obj [("id", .str "call_a"), ("type", .str "function"),
        ("function", .obj [("name", .str "tool_a"),
                           ("arguments", .str "\x7b\x7d")])]

/-- The finalized entry for index 1 of the two-call stream. -/
def twoCallsEntryB : Json :=
  .obj [("id", .str "call_b"), ("type", .str "function"),
        ("function", .obj [("name", .str "tool_b"),
                           ("arguments", .str "\x7b\x7d")])]

/-- The entry's current `function.arguments` string, as the code reads it:
`entry["function"]["arguments"].as_str().unwrap_or("")`. -/
def argsOfEntry (e : Json) : String :=
  ((((e.getField "function").getD (.obj [])).getField "arguments").bind
    Json.asStr).getD ""

/-- The arguments fragment a delta carries (empty when absent). -/
def argFragOf (tc : Json) : String :=
  (((tc.getField "function").bind (fun f => f.getField "arguments")).bind
    Json.asStr).getD ""

/-- Concatenation of the argument fragments of a delta sequence in
arrival order. -/
def concatFrags : List Json → String
  | [] => ""
  | tc :: rest => argFragOf tc ++ concatFrags rest

/-- Well-formedness of a buffer entry: an object whose `function` field is
an object (true of `defaultToolCallEntry` and preserved by merging). -/
def wfEntry (e : Json) : Bool :=
  e.isObj && ((e.getField "function").getD Json.null).isObj

/-- The text of a tool-call `data:` line up to (excluding) a two-byte
character `é` inside the JSON-encoded arguments string. -/
def prefixCex : String :=
  "data: \x7b\"choices\":[\x7b\"delta\":\x7b\"tool_calls\":[\x7b\"index\":0,\"id\":\"call_1\",\"function\":\x7b\"name\":\"read_file\",\"arguments\":\"\x7b\\\"p\\\":\\\""

/-- The rest of that line after the `é`, including the newline. -/
def suffixCex : String := "\\\"\x7d\"\x7d\x7d]\x7d\x7d]\x7d\n"

/-- The whole well-formed tool-call line (`é` in the arguments). -/
def lineCexClean : String := prefixCex ++ "é" ++ suffixCex

/-- The payload of `lineCexClean` (after `data: ` and trimming). -/
def payloadCexClean : String :=
  "\x7b\"choices\":[\x7b\"delta\":\x7b\"tool_calls\":[\x7b\"index\":0,\"id\":\"call_1\",\"function\":\x7b\"name\":\"read_file\",\"arguments\":\"\x7b\\\"p\\\":\\\"é\\\"\x7d\"\x7d\x7d]\x7d\x7d]\x7d"

/-- The payload after the mid-character chunk split: each half of the
`é` decodes to one U+FFFD replacement character. -/
def payloadCexCorrupt : String :=
  "\x7b\"choices\":[\x7b\"delta\":\x7b\"tool_calls\":[\x7b\"index\":0,\"id\":\"call_1\",\"function\":\x7b\"name\":\"read_file\",\"arguments\":\"\x7b\\\"p\\\":\\\"��\\\"\x7d\"\x7d\x7d]\x7d\x7d]\x7d"

/-- The `serde_json::Value` of `payloadCexClean`. -/
def eventCexClean : Json :=
  .obj [("choices", .arr [
    .obj [("delta", .obj [
      ("tool_calls", .arr [
        .obj [("index", .num 0), ("id", .str "call_1"),
              ("function", .obj [("name", .str "read_file"),
                                 ("arguments",
                                  .str "\x7b\"p\":\"é\"\x7d")])]])])]])]

/-- The `serde_json::Value` of `payloadCexCorrupt` (the replacement
characters are ordinary JSON string contents, so it still parses). -/
def eventCexCorrupt : Json :=
  .obj [("choices", .arr [
    .obj [("delta", .obj [
      ("tool_calls", .arr [
        .obj [("index", .num 0), ("id", .str "call_1"),
              ("function", .obj [("name", .str "read_file"),
                                 ("arguments",
                                  .str "\x7b\"p\":\"��\"\x7d")])]])])]])]

/-- `serde_json::from_str` restricted to the clean and the corrupted
payloads. -/
def parseCex (s : String) : Option Json :=
  if s = payloadCexClean then some eventCexClean
  else if s = payloadCexCorrupt then some eventCexCorrupt
  else none

/-- First byte chunk of the split stream: everything before the `é`,
plus the first of its two UTF-8 bytes (0xC3). -/
def chunkCex1 : List Nat := utf8Encode prefixCex ++ [0xC3]

/-- Second byte chunk: the second byte of the `é` (0xA9), then the rest
of the stream including the `[DONE]` line. -/
def chunkCex2 : List Nat :=
  0xA9 :: utf8Encode (suffixCex ++ "data: [DONE]\n")

/-- A 40000-byte tool output of 20000 two-byte characters (é), used to
separate the code's byte-based preview from the spec's character count. -/
def wideOutput : String := String.mk (List.replicate 20000 'é')

/-- A 32769-byte tool output whose byte index 32768 falls in the middle
of a two-byte character, so `&output[..32768]` panics. -/
def panicOutput : String := String.mk ('a' :: List.replicate 16384 'é')

/-- A 32769-byte ASCII tool output (just over the spill threshold). -/
def asciiBigOutput : String := String.mk (List.replicate 32769 'a')

/-- A small three-message conversation (no truncation fires). -/
def smallConvo : ConversationState :=
  ⟨"m", [⟨"user", .str "a"⟩, ⟨"assistant", .str "b"⟩, ⟨"user", .str "c"⟩]⟩

/-- A one-message conversation whose content is a non-string (an
assistant tool_calls object). -/
def objConvo : ConversationState :=
  ⟨"m", [⟨"assistant", .obj [("tool_calls", .arr [])]⟩]⟩

/-- The entry's finalized id as the orchestrator reads it. -/
def idOfEntry (e : Json) : Option String := getStrField e "id"

/-- The entry's finalized `function.name` as the orchestrator reads it. -/
def nameOfEntry (e : Json) : Option String :=
  getStrField ((e.getField "function").getD (.obj [])) "name"

/-! ## Lemmas about line framing and chunk boundaries -/

theorem splitLines_append (a b : List Char) :
    splitLines (a ++ b) =
      ((splitLines a).1 ++ (splitLines ((splitLines a).2 ++ b)).1,
       (splitLines ((splitLines a).2 ++ b)).2) := by
  induction a with
  | nil => simp [splitLines]
  | cons c a ih =>
    by_cases hc : c = '\n'
    · subst hc
      simp only [List.cons_append, splitLines, if_pos rfl]
      simp [ih]
    · simp only [List.cons_append, splitLines, if_neg hc, List.append_eq]
      rcases h : splitLines a with ⟨ls, rest⟩
      rcases ls with _ | ⟨l, ls⟩
      · rcases h2 : splitLines (rest ++ b) with ⟨ls2, rest2⟩
        rcases ls2 with _ | ⟨l2, ls2⟩ <;>
          · rw [ih, h]
            simp only [List.nil_append, h2]
            simp [splitLines, if_neg hc, h2]
      · rw [ih, h]
        simp

theorem processLines_append (d : List (Int × Json) → List (Int × Json))
    (g : Bool) (p : String → Option Json) (st : StreamState)
    (ls1 ls2 : List String) :
    processLines d g p st (ls1 ++ ls2) =
      match processLines d g p st ls1 with
      | .inl st2 => processLines d g p st2 ls2
      | .inr r => .inr r := by
  induction ls1 generalizing st with
  | nil => rfl
  | cons l ls ih =>
    simp only [List.cons_append, processLines]
    rcases stepLine d g p st l with st2 | r
    · exact ih st2
    · rfl

theorem runChunks_cons_cons (d : List (Int × Json) → List (Int × Json))
    (g : Bool) (p : String → Option Json) (buffer : List Char)
    (st : StreamState) (c1 c2 : String) (rest : List String) :
    runChunks d g p buffer st (c1 :: c2 :: rest) =
      runChunks d g p buffer st ((c1 ++ c2) :: rest) := by
  simp only [runChunks, String.data_append, ← List.append_assoc]
  rw [splitLines_append (buffer ++ c1.data) c2.data]
  simp only [List.map_append]
  rw [processLines_append]
  rcases processLines d g p st
      ((splitLines (buffer ++ c1.data)).1.map String.mk) with st2 | r
  · simp only [runChunks]
  · rfl

theorem joinChunks_cons (c : String) (cs : List String) :
    joinChunks (c :: cs) = c ++ joinChunks cs := rfl

theorem runChunks_join (d : List (Int × Json) → List (Int × Json))
    (g : Bool) (p : String → Option Json) :
    ∀ (cs : List String) (c : String) (buffer : List Char)
      (st : StreamState),
      runChunks d g p buffer st (c :: cs) =
        runChunks d g p buffer st [joinChunks (c :: cs)] := by
  intro cs
  induction cs with
  | nil =>
    intro c buffer st
    rw [joinChunks_cons]
    simp [joinChunks]
  | cons c2 rest ih =>
    intro c buffer st
    rw [runChunks_cons_cons, ih (c ++ c2), joinChunks_cons, joinChunks_cons,
      joinChunks_cons, String.append_assoc]

theorem runChunks_join_all
    (d : List (Int × Json) → List (Int × Json)) (g : Bool)
    (p : String → Option Json) (chunks : List String) :
    runChunks d g p [] (initialStreamState g) chunks =
      runChunks d g p [] (initialStreamState g) [joinChunks chunks] := by
  rcases chunks with _ | ⟨c, cs⟩
  · rfl
  · exact runChunks_join d g p cs c [] (initialStreamState g)

/-! ## UTF-8 round-trip: encoding then lossy decoding is the identity -/

theorem utf8Step_nil_eval (b : Nat) : utf8Step [] b = utf8Step0 b := rfl

theorem utf8Step0_lead (b : Nat) (h1 : ¬ b < 0x80)
    (h2 : (0xC2 ≤ b ∧ b ≤ 0xDF) ∨ (0xE0 ≤ b ∧ b ≤ 0xEF) ∨
      (0xF0 ≤ b ∧ b ≤ 0xF4)) : utf8Step0 b = ([], [b]) := by
  unfold utf8Step0
  rw [if_neg h1, if_pos h2]

theorem utf8FoldStep_eval (acc : List Char) (p : List Nat) (b : Nat)
    (cs : List Char) (p2 : List Nat) (h : utf8Step p b = (cs, p2)) :
    utf8FoldStep (acc, p) b = (acc ++ cs, p2) := by
  unfold utf8FoldStep
  rw [h]

theorem utf8FoldStep_encode_char (c : Char) (acc : List Char) :
    List.foldl utf8FoldStep (acc, ([] : List Nat)) (utf8BytesOfChar c) =
      (acc ++ [c], []) := by
  have hv : c.toNat < 0xd800 ∨ 0xdfff < c.toNat ∧ c.toNat < 0x110000 :=
    c.valid
  by_cases h1 : c.toNat < 0x80
  · have hbytes : utf8BytesOfChar c = [c.toNat] := by
      unfold utf8BytesOfChar
      rw [if_pos h1]
    have hstep : utf8Step [] c.toNat = ([c], []) := by
      rw [utf8Step_nil_eval]
      unfold utf8Step0
      rw [if_pos h1, Char.ofNat_toNat]
    rw [hbytes, List.foldl_cons, List.foldl_nil,
      utf8FoldStep_eval acc [] c.toNat [c] [] hstep]
  · by_cases h2 : c.toNat < 0x800
    · have hbytes : utf8BytesOfChar c =
          [0xC0 + c.toNat / 0x40, 0x80 + c.toNat % 0x40] := by
        unfold utf8BytesOfChar
        rw [if_neg h1, if_pos h2]
      have hstep1 : utf8Step [] (0xC0 + c.toNat / 0x40) =
          ([], [0xC0 + c.toNat / 0x40]) := by
        rw [utf8Step_nil_eval]
        exact utf8Step0_lead _ (by omega) (by omega)
      have hstep2 : utf8Step [0xC0 + c.toNat / 0x40]
          (0x80 + c.toNat % 0x40) = ([c], []) := by
        simp only [utf8Step]
        rw [if_pos (by omega), if_pos (by omega)]
        have hval : (0xC0 + c.toNat / 0x40 - 0xC0) * 0x40 +
            (0x80 + c.toNat % 0x40 - 0x80) = c.toNat := by omega
        rw [hval, Char.ofNat_toNat]
      rw [hbytes, List.foldl_cons, List.foldl_cons, List.foldl_nil,
        utf8FoldStep_eval acc [] _ [] [0xC0 + c.toNat / 0x40] hstep1,
        List.append_nil,
        utf8FoldStep_eval acc [0xC0 + c.toNat / 0x40] _ [c] [] hstep2]
    · by_cases h3 : c.toNat < 0x10000
      · have hbytes : utf8BytesOfChar c =
            [0xE0 + c.toNat / 0x1000, 0x80 + c.toNat / 0x40 % 0x40,
             0x80 + c.toNat % 0x40] := by
          unfold utf8BytesOfChar
          rw [if_neg h1, if_neg h2, if_pos h3]
        have hstep1 : utf8Step [] (0xE0 + c.toNat / 0x1000) =
            ([], [0xE0 + c.toNat / 0x1000]) := by
          rw [utf8Step_nil_eval]
          exact utf8Step0_lead _ (by omega) (by omega)
        have hstep2 : utf8Step [0xE0 + c.toNat / 0x1000]
            (0x80 + c.toNat / 0x40 % 0x40) =
            ([], [0xE0 + c.toNat / 0x1000,
                  0x80 + c.toNat / 0x40 % 0x40]) := by
          simp only [utf8Step]
          rw [if_neg (by omega), if_pos (by omega)]
        have hstep3 : utf8Step [0xE0 + c.toNat / 0x1000,
            0x80 + c.toNat / 0x40 % 0x40] (0x80 + c.toNat % 0x40) =
            ([c], []) := by
          simp only [utf8Step]
          rw [if_pos (by omega), if_pos (by omega)]
          have hval : (0xE0 + c.toNat / 0x1000 - 0xE0) * 0x1000 +
              (0x80 + c.toNat / 0x40 % 0x40 - 0x80) * 0x40 +
              (0x80 + c.toNat % 0x40 - 0x80) = c.toNat := by omega
          rw [hval, Char.ofNat_toNat]
        rw [hbytes, List.foldl_cons, List.foldl_cons, List.foldl_cons,
          List.foldl_nil,
          utf8FoldStep_eval acc [] _ [] _ hstep1, List.append_nil,
          utf8FoldStep_eval acc _ _ [] _ hstep2, List.append_nil,
          utf8FoldStep_eval acc _ _ [c] [] hstep3]
      · have h4 : c.toNat < 0x110000 := by omega
        have hbytes : utf8BytesOfChar c =
            [0xF0 + c.toNat / 0x40000, 0x80 + c.toNat / 0x1000 % 0x40,
             0x80 + c.toNat / 0x40 % 0x40, 0x80 + c.toNat % 0x40] := by
          unfold utf8BytesOfChar
          rw [if_neg h1, if_neg h2, if_neg h3]
        have hstep1 : utf8Step [] (0xF0 + c.toNat / 0x40000) =
            ([], [0xF0 + c.toNat / 0x40000]) := by
          rw [utf8Step_nil_eval]
          exact utf8Step0_lead _ (by omega) (by omega)
        have hstep2 : utf8Step [0xF0 + c.toNat / 0x40000]
            (0x80 + c.toNat / 0x1000 % 0x40) =
            ([], [0xF0 + c.toNat / 0x40000,
                  0x80 + c.toNat / 0x1000 % 0x40]) := by
          simp only [utf8Step]
          rw [if_neg (by omega), if_pos (by omega)]
        have hstep3 : utf8Step [0xF0 + c.toNat / 0x40000,
            0x80 + c.toNat / 0x1000 % 0x40] (0x80 + c.toNat / 0x40 % 0x40) =
            ([], [0xF0 + c.toNat / 0x40000,
                  0x80 + c.toNat / 0x1000 % 0x40,
                  0x80 + c.toNat / 0x40 % 0x40]) := by
          simp only [utf8Step]
          rw [if_neg (by omega), if_pos (by omega)]
        have hstep4 : utf8Step [0xF0 + c.toNat / 0x40000,
            0x80 + c.toNat / 0x1000 % 0x40, 0x80 + c.toNat / 0x40 % 0x40]
            (0x80 + c.toNat % 0x40) = ([c], []) := by
          simp only [utf8Step]
          rw [if_pos (by omega)]
          have hval : (0xF0 + c.toNat / 0x40000 - 0xF0) * 0x40000 +
              (0x80 + c.toNat / 0x1000 % 0x40 - 0x80) * 0x1000 +
              (0x80 + c.toNat / 0x40 % 0x40 - 0x80) * 0x40 +
              (0x80 + c.toNat % 0x40 - 0x80) = c.toNat := by omega
          rw [hval, Char.ofNat_toNat]
        rw [hbytes, List.foldl_cons, List.foldl_cons, List.foldl_cons,
          List.foldl_cons, List.foldl_nil,
          utf8FoldStep_eval acc [] _ [] _ hstep1, List.append_nil,
          utf8FoldStep_eval acc _ _ [] _ hstep2, List.append_nil,
          utf8FoldStep_eval acc _ _ [] _ hstep3, List.append_nil,
          utf8FoldStep_eval acc _ _ [c] [] hstep4]

theorem utf8FoldStep_encode (cs : List Char) :
    ∀ acc, List.foldl utf8FoldStep (acc, ([] : List Nat))
      (utf8EncodeChars cs) = (acc ++ cs, []) := by
  induction cs with
  | nil => intro acc; simp [utf8EncodeChars]
  | cons c rest ih =>
    intro acc
    show List.foldl utf8FoldStep (acc, [])
      (utf8BytesOfChar c ++ utf8EncodeChars rest) = _
    rw [List.foldl_append, utf8FoldStep_encode_char, ih]
    simp

theorem fromUtf8Lossy_encodeChars (cs : List Char) :
    fromUtf8Lossy (utf8EncodeChars cs) = cs := by
  unfold fromUtf8Lossy
  rw [utf8FoldStep_encode cs []]
  simp

theorem fromUtf8Lossy_encode (s : String) :
    String.mk (fromUtf8Lossy (utf8Encode s)) = s := by
  unfold utf8Encode
  rw [fromUtf8Lossy_encodeChars]

theorem handle_stream_char_boundary_invariance
    (d : List (Int × Json) → List (Int × Json)) (g : Bool)
    (p : String → Option Json) (ss : List String) :
    handle_stream d g p (ss.map utf8Encode) =
      handle_stream d g p [utf8Encode (joinChunks ss)] := by
  unfold handle_stream
  rw [List.map_map]
  have hfun : ((fun ch => String.mk (fromUtf8Lossy ch)) ∘ utf8Encode) =
      fun s : String => s := by
    funext s
    exact fromUtf8Lossy_encode s
  rw [hfun]
  simp only [List.map_cons, List.map_nil, fromUtf8Lossy_encode]
  rw [show (ss.map fun s => s) = ss from by simp]
  exact runChunks_join_all d g p ss

/-! ## Lemmas about object field update and the fragment merge -/

theorem lookup_setFieldList_self (fs : List (String × Json)) (k : String)
    (v : Json) : (setFieldList fs k v).lookup k = some v := by
  induction fs with
  | nil => simp [setFieldList, List.lookup]
  | cons f rest ih =>
    rcases f with ⟨k0, v0⟩
    by_cases h : k0 = k
    · subst h; simp [setFieldList, List.lookup]
    · have hbe : (k == k0) = false := beq_eq_false_iff_ne.mpr (Ne.symm h)
      simp [setFieldList, h, List.lookup, hbe, ih]

theorem lookup_setFieldList_ne (fs : List (String × Json)) (k k2 : String)
    (v : Json) (h : k2 ≠ k) :
    (setFieldList fs k v).lookup k2 = fs.lookup k2 := by
  have hbe : (k2 == k) = false := beq_eq_false_iff_ne.mpr h
  induction fs with
  | nil => simp [setFieldList, List.lookup, hbe]
  | cons f rest ih =>
    rcases f with ⟨k0, v0⟩
    by_cases h0 : k0 = k
    · subst h0
      simp [setFieldList, List.lookup, hbe]
    · rcases hb2 : k2 == k0 <;>
        simp [setFieldList, h0, List.lookup, hb2, ih]

theorem getField_setField_self (j : Json) (k : String) (v : Json)
    (h : j.isObj = true) : (j.setField k v).getField k = some v := by
  rcases j with _ | _ | _ | _ | _ | fs <;> simp_all [Json.isObj]
  exact lookup_setFieldList_self fs k v

theorem getField_setField_ne (j : Json) (k k2 : String) (v : Json)
    (h : k2 ≠ k) : (j.setField k v).getField k2 = j.getField k2 := by
  rcases j with _ | _ | _ | _ | _ | fs <;>
    simp [Json.setField, Json.getField]
  exact lookup_setFieldList_ne fs k k2 v h

theorem wfEntry_iff (e : Json) :
    wfEntry e = true ↔
      ∃ fs gs, e = .obj fs ∧ e.getField "function" = some (.obj gs) := by
  constructor
  · intro h
    rcases e with _ | _ | _ | _ | _ | fs <;> simp_all [wfEntry, Json.isObj]
    rcases hf : (Json.obj fs).getField "function" with _ | f
    · rw [hf] at h; simp [Json.isObj] at h
    · rw [hf] at h
      rcases f with _ | _ | _ | _ | _ | gs <;> simp_all [Json.isObj]
  · rintro ⟨fs, gs, rfl, hfn⟩
    simp [wfEntry, Json.isObj, hfn]

theorem isObj_setField (j : Json) (k : String) (v : Json)
    (h : j.isObj = true) : (j.setField k v).isObj = true := by
  rcases j with _ | _ | _ | _ | _ | fs <;> simp_all [Json.isObj, Json.setField]

theorem argsOfEntry_setField_id (e : Json) (v : Json) :
    argsOfEntry (e.setField "id" v) = argsOfEntry e := by
  unfold argsOfEntry
  rw [getField_setField_ne e "id" "function" v (by decide)]

theorem getField_fn_setField_id (e : Json) (v : Json) :
    (e.setField "id" v).getField "function" = e.getField "function" :=
  getField_setField_ne e "id" "function" v (by decide)

theorem argsOfEntry_set_name (e : Json) (gs : List (String × Json))
    (v : Json) (he : e.isObj = true)
    (hfn : e.getField "function" = some (.obj gs)) :
    argsOfEntry (e.setField "function"
      (((e.getField "function").getD (.obj [])).setField "name" v)) =
      argsOfEntry e := by
  unfold argsOfEntry
  rw [getField_setField_self _ _ _ he, hfn]
  simp only [Option.getD_some, Json.setField, Json.getField]
  rw [lookup_setFieldList_ne gs "name" "arguments" v (by decide)]

theorem argsOfEntry_set_args (e : Json) (gs : List (String × Json))
    (s : String) (he : e.isObj = true)
    (hfn : e.getField "function" = some (.obj gs)) :
    argsOfEntry (e.setField "function"
      (((e.getField "function").getD (.obj [])).setField "arguments"
        (.str s))) = s := by
  unfold argsOfEntry
  rw [getField_setField_self _ _ _ he, hfn]
  simp only [Option.getD_some, Json.setField, Json.getField]
  rw [lookup_setFieldList_self gs "arguments" (.str s)]
  rfl

theorem argsOfEntry_fold (x : Json) :
    ((((x.getField "function").getD (.obj [])).getField "arguments").bind
      Json.asStr).getD "" = argsOfEntry x := rfl

theorem wfEntry_of_isObj (e : Json) (he : e.isObj = true)
    (h2 : ((e.getField "function").getD Json.null).isObj = true) :
    wfEntry e = true := by
  unfold wfEntry
  rw [he, h2]
  rfl

theorem mergeFunctionStage_props (e f : Json) (gs : List (String × Json))
    (he : e.isObj = true)
    (hfn : e.getField "function" = some (.obj gs)) :
    wfEntry (mergeFunctionStage e f) = true ∧
      argsOfEntry (mergeFunctionStage e f) =
        argsOfEntry e ++ (getStrField f "arguments").getD "" := by
  rcases hname : getStrField f "name" with _ | namev <;>
    rcases harg : getStrField f "arguments" with _ | argv <;>
    simp only [mergeFunctionStage, hname, harg]
  · refine ⟨wfEntry_of_isObj e he ?_, by simp⟩
    rw [hfn]
    rfl
  · constructor
    · refine wfEntry_of_isObj _ (isObj_setField _ _ _ he) ?_
      rw [getField_setField_self _ _ _ he, hfn]
      rfl
    · rw [argsOfEntry_fold, argsOfEntry_set_args e gs _ he hfn]
      simp
  · constructor
    · refine wfEntry_of_isObj _ (isObj_setField _ _ _ he) ?_
      rw [getField_setField_self _ _ _ he, hfn]
      rfl
    · rw [argsOfEntry_set_name e gs _ he hfn]
      simp
  · have he2 : (e.setField "function"
        (((e.getField "function").getD (.obj [])).setField "name"
          (.str namev))).isObj = true := isObj_setField _ _ _ he
    have hfn2 : (e.setField "function"
        (((e.getField "function").getD (.obj [])).setField "name"
          (.str namev))).getField "function" =
        some (.obj (setFieldList gs "name" (.str namev))) := by
      rw [getField_setField_self _ _ _ he, hfn]
      rfl
    constructor
    · refine wfEntry_of_isObj _ (isObj_setField _ _ _ he2) ?_
      rw [getField_setField_self _ _ _ he2, hfn2]
      rfl
    · rw [argsOfEntry_fold, argsOfEntry_set_args _ _ _ he2 hfn2,
        argsOfEntry_set_name e gs _ he hfn]
      simp

theorem mergeToolCallDelta_props (e tc : Json) (hwf : wfEntry e = true) :
    wfEntry (mergeToolCallDelta e tc) = true ∧
      argsOfEntry (mergeToolCallDelta e tc) =
        argsOfEntry e ++ argFragOf tc := by
  rcases (wfEntry_iff e).mp hwf with ⟨fs, gs, rfl, hfn⟩
  have he : (Json.obj fs).isObj = true := rfl
  rcases hid : getStrField tc "id" with _ | idv <;>
    rcases hf : tc.getField "function" with _ | f <;>
    simp only [mergeToolCallDelta, hid, hf]
  · exact ⟨hwf, by simp [argFragOf, hf]⟩
  · have h := mergeFunctionStage_props (Json.obj fs) f gs he hfn
    refine ⟨h.1, ?_⟩
    rw [h.2]
    simp [argFragOf, hf, getStrField]
  · constructor
    · refine wfEntry_of_isObj _ (isObj_setField _ _ _ he) ?_
      rw [getField_fn_setField_id, hfn]
      rfl
    · rw [argsOfEntry_setField_id]
      simp [argFragOf, hf]
  · have he1 : ((Json.obj fs).setField "id" (.str idv)).isObj = true :=
      isObj_setField _ _ _ he
    have hfn1 : ((Json.obj fs).setField "id" (.str idv)).getField
        "function" = some (.obj gs) := by
      rw [getField_fn_setField_id]
      exact hfn
    have h := mergeFunctionStage_props _ f gs he1 hfn1
    refine ⟨h.1, ?_⟩
    rw [h.2, argsOfEntry_setField_id]
    simp [argFragOf, hf, getStrField]

theorem foldl_applyToolCallDelta_single (i : Int) :
    ∀ (tcs : List Json) (e : Json), (∀ tc ∈ tcs, deltaIndexOf tc = i) →
      List.foldl applyToolCallDelta [(i, e)] tcs =
        [(i, List.foldl mergeToolCallDelta e tcs)] := by
  intro tcs
  induction tcs with
  | nil => intro e _; rfl
  | cons tc rest ih =>
    intro e h
    simp only [List.foldl_cons]
    have hidx : deltaIndexOf tc = i := h tc (by simp)
    have hstep : applyToolCallDelta [(i, e)] tc =
        [(i, mergeToolCallDelta e tc)] := by
      simp [applyToolCallDelta, hidx, updateBuffer]
    rw [hstep]
    exact ih _ (fun tc2 h2 => h tc2 (by simp [h2]))

theorem argsOfEntry_foldl_merge :
    ∀ (tcs : List Json) (e : Json), wfEntry e = true →
      wfEntry (List.foldl mergeToolCallDelta e tcs) = true ∧
        argsOfEntry (List.foldl mergeToolCallDelta e tcs) =
          argsOfEntry e ++ concatFrags tcs := by
  intro tcs
  induction tcs with
  | nil => intro e hwf; exact ⟨hwf, by simp [concatFrags]⟩
  | cons tc rest ih =>
    intro e hwf
    have h := mergeToolCallDelta_props e tc hwf
    have h2 := ih _ h.1
    refine ⟨h2.1, ?_⟩
    simp only [List.foldl_cons]
    rw [h2.2, h.2, concatFrags, String.append_assoc]

theorem bufferArgs_concat (i : Int) (tcs : List Json) (hne : tcs ≠ [])
    (hall : ∀ tc ∈ tcs, deltaIndexOf tc = i) :
    ((List.foldl applyToolCallDelta [] tcs).lookup i).map argsOfEntry =
      some (concatFrags tcs) := by
  rcases tcs with _ | ⟨tc, rest⟩
  · exact absurd rfl hne
  · simp only [List.foldl_cons]
    have hidx : deltaIndexOf tc = i := hall tc (by simp)
    have h0 : applyToolCallDelta [] tc =
        [(i, mergeToolCallDelta defaultToolCallEntry tc)] := by
      simp [applyToolCallDelta, hidx, updateBuffer]
    rw [h0, foldl_applyToolCallDelta_single i rest _
      (fun tc2 h2 => hall tc2 (by simp [h2]))]
    have hd := mergeToolCallDelta_props defaultToolCallEntry tc (by decide)
    have h2 := argsOfEntry_foldl_merge rest _ hd.1
    simp only [List.lookup, beq_self_eq_true, Option.map_some,
      Option.map_some']
    rw [h2.2, hd.2]
    have hdefault : argsOfEntry defaultToolCallEntry = "" := rfl
    rw [hdefault, concatFrags]
    simp

/-! ## Claim C1 -/

set_option maxRecDepth 8192 in
/-- C1 (amended): for every tool-call delta sequence arriving at one
stream index, the finalized arguments string is the concatenation of the
argument fragments in arrival order; splitting the byte stream at UTF-8
*character boundaries* (each chunk the encoding of a character sequence)
gives exactly the same `StreamResult` as the unsplit stream; and the
two-fragment scenario of spec 8 finalizes to the single request
`{id: "call_1", name: "read_file", arguments: "{\"path\":\"a.txt\"}"}`.
Byte-level splits *inside* a multi-byte character are excluded: there the
per-chunk lossy decoding corrupts the payload and the finalized requests
can change (see the counterexample). -/
theorem claim_C1 :
    (∀ (i : Int) (tcs : List Json), tcs ≠ [] →
        (∀ tc ∈ tcs, deltaIndexOf tc = i) →
        ((List.foldl applyToolCallDelta [] tcs).lookup i).map argsOfEntry =
          some (concatFrags tcs)) ∧
    (∀ (d : List (Int × Json) → List (Int × Json)) (g : Bool)
        (p : String → Option Json) (ss : List String),
        handle_stream d g p (ss.map utf8Encode) =
          handle_stream d g p [utf8Encode (joinChunks ss)]) ∧
    (handle_stream id false scenarioParse
        [utf8Encode ("data: " ++ scenarioPayload1 ++ "\n"),
         utf8Encode ("data: " ++ scenarioPayload2 ++ "\n"),
         utf8Encode "data: [DONE]\n"]).tool_calls = [scenarioExpectedCall] :=
  ⟨bufferArgs_concat, handle_stream_char_boundary_invariance, by rfl⟩

set_option maxRecDepth 8192 in
/-- C1 counterexample: the two byte chunks split the well-formed stream
between the two UTF-8 bytes of the `é` inside the arguments string
(their concatenation is exactly the unsplit stream).  The unsplit stream
finalizes arguments `{"p":"é"}`, the split stream — decoded chunk by
chunk with `from_utf8_lossy`, as api.rs:256 does — finalizes
`{"p":"\u{FFFD}\u{FFFD}"}`: a different set of `ToolCallRequest`s, so
byte-level chunk-boundary invariance fails on the code. -/
theorem claim_C1_counterexample :
    chunkCex1 ++ chunkCex2 =
      utf8Encode (lineCexClean ++ "data: [DONE]\n") ∧
    (handle_stream id false parseCex
      [utf8Encode (lineCexClean ++ "data: [DONE]\n")]).tool_calls.map
        argsOfEntry = ["\x7b\"p\":\"é\"\x7d"] ∧
    (handle_stream id false parseCex
      [chunkCex1, chunkCex2]).tool_calls.map argsOfEntry =
        ["\x7b\"p\":\"��\"\x7d"] ∧
    ("\x7b\"p\":\"é\"\x7d" : String) ≠ "\x7b\"p\":\"��\"\x7d" :=
  ⟨by rfl, by rfl, by rfl, by decide⟩

/-- Witness for C1: one delta at index 0 carrying the fragment `"xy"`
finalizes to arguments `"xy"`. -/
theorem claim_C1_witness :
    ((List.foldl applyToolCallDelta []
        [Json.obj [("index", Json.num 0),
           ("function", Json.obj [("arguments", Json.str "xy")])]]).lookup
      (0 : Int)).map argsOfEntry = some "xy" := by
  have h := claim_C1.1 0
    [Json.obj [("index", Json.num 0),
       ("function", Json.obj [("arguments", Json.str "xy")])]]
    (by simp) (by decide)
  exact h.trans (by rfl)

/-! ## Claim C2 -/

set_option maxRecDepth 8192 in
/-- C2: the claim that finalization yields the pending tool calls in
ascending stream-index order fails on the code: the buffer is a
`std::collections::HashMap` and `drain()` iterates in an unspecified
order.  Reversed insertion order is such an order (it is a permutation of
the buffer, as every `HashMap` drain is), and under it a stream whose
single event requests calls at indices 0 and 1 finalizes in *descending*
index order: `call_b` (index 1) before `call_a` (index 0). -/
theorem claim_C2 :
    (∀ (l : List (Int × Json)), (List.reverse l).Perm l) ∧
    (handle_stream List.reverse false twoCallsParse
        [utf8Encode ("data: " ++ twoCallsPayload ++ "\n"),
         utf8Encode "data: [DONE]\n"]).tool_calls =
      [twoCallsEntryB, twoCallsEntryA] ∧
    getStrField twoCallsEntryA "id" = some "call_a" ∧
    getStrField twoCallsEntryB "id" = some "call_b" :=
  ⟨fun l => List.reverse_perm l, by rfl, by rfl, by rfl⟩

/-! ## Claim C3 -/

theorem getField_id_setField_fn (e : Json) (v : Json) :
    (e.setField "function" v).getField "id" = e.getField "id" :=
  getField_setField_ne e "function" "id" v (by decide)

theorem idOfEntry_mergeFunctionStage (e f : Json) :
    idOfEntry (mergeFunctionStage e f) = idOfEntry e := by
  rcases hname : getStrField f "name" with _ | namev <;>
    rcases harg : getStrField f "arguments" with _ | argv <;>
    simp only [mergeFunctionStage, hname, harg] <;>
    unfold idOfEntry getStrField <;>
    (repeat rw [getField_id_setField_fn])

theorem nameOfEntry_setField_id (e v : Json) :
    nameOfEntry (e.setField "id" v) = nameOfEntry e := by
  unfold nameOfEntry
  rw [getField_fn_setField_id]

theorem nameOfEntry_set_name_some (e : Json) (gs : List (String × Json))
    (namev : String) (he : e.isObj = true)
    (hfn : e.getField "function" = some (.obj gs)) :
    nameOfEntry (e.setField "function"
      (((e.getField "function").getD (.obj [])).setField "name"
        (.str namev))) = some namev := by
  unfold nameOfEntry getStrField
  rw [getField_setField_self _ _ _ he, hfn]
  simp only [Option.getD_some, Json.setField, Json.getField]
  rw [lookup_setFieldList_self]
  rfl

theorem nameOfEntry_set_args (e : Json) (gs : List (String × Json))
    (s : String) (he : e.isObj = true)
    (hfn : e.getField "function" = some (.obj gs)) :
    nameOfEntry (e.setField "function"
      (((e.getField "function").getD (.obj [])).setField "arguments"
        (.str s))) = nameOfEntry e := by
  unfold nameOfEntry getStrField
  rw [getField_setField_self _ _ _ he, hfn]
  simp only [Option.getD_some, Json.setField, Json.getField]
  rw [lookup_setFieldList_ne gs "arguments" "name" _ (by decide)]

theorem nameOfEntry_stage_none (e f : Json) (gs : List (String × Json))
    (he : e.isObj = true)
    (hfn : e.getField "function" = some (.obj gs))
    (hname : getStrField f "name" = none) :
    nameOfEntry (mergeFunctionStage e f) = nameOfEntry e := by
  rcases harg : getStrField f "arguments" with _ | argv <;>
    simp only [mergeFunctionStage, hname, harg]
  exact nameOfEntry_set_args e gs _ he hfn

theorem nameOfEntry_stage_some (e f : Json) (gs : List (String × Json))
    (he : e.isObj = true)
    (hfn : e.getField "function" = some (.obj gs)) (namev : String)
    (hname : getStrField f "name" = some namev) :
    nameOfEntry (mergeFunctionStage e f) = some namev := by
  rcases harg : getStrField f "arguments" with _ | argv <;>
    simp only [mergeFunctionStage, hname, harg]
  · exact nameOfEntry_set_name_some e gs namev he hfn
  · have he2 : (e.setField "function"
        (((e.getField "function").getD (.obj [])).setField "name"
          (.str namev))).isObj = true := isObj_setField _ _ _ he
    have hfn2 : (e.setField "function"
        (((e.getField "function").getD (.obj [])).setField "name"
          (.str namev))).getField "function" =
        some (.obj (setFieldList gs "name" (.str namev))) := by
      rw [getField_setField_self _ _ _ he, hfn]
      rfl
    rw [nameOfEntry_set_args _ _ _ he2 hfn2,
      nameOfEntry_set_name_some e gs namev he hfn]

/-- C3 (amended): the id and name fields of a pending entry follow
last-carried-value-wins, not first-non-empty-wins: a fragment that omits
the field leaves it unchanged, and a fragment that carries the field as a
string — even the empty string — overwrites it. -/
theorem claim_C3 (e tc : Json) (hwf : wfEntry e = true) :
    (getStrField tc "id" = none →
      idOfEntry (mergeToolCallDelta e tc) = idOfEntry e) ∧
    (∀ s, getStrField tc "id" = some s →
      idOfEntry (mergeToolCallDelta e tc) = some s) ∧
    ((tc.getField "function").bind (fun f => getStrField f "name") = none →
      nameOfEntry (mergeToolCallDelta e tc) = nameOfEntry e) ∧
    (∀ s, (tc.getField "function").bind (fun f => getStrField f "name") =
        some s → nameOfEntry (mergeToolCallDelta e tc) = some s) := by
  rcases (wfEntry_iff e).mp hwf with ⟨fs, gs, rfl, hfn⟩
  have he : (Json.obj fs).isObj = true := rfl
  rcases hid : getStrField tc "id" with _ | idv <;>
    rcases hf : tc.getField "function" with _ | f
  · exact ⟨fun _ => by simp only [mergeToolCallDelta, hid, hf],
      fun s h => Option.noConfusion h,
      fun _ => by simp only [mergeToolCallDelta, hid, hf],
      fun s h => Option.noConfusion h⟩
  · refine ⟨fun _ => ?_, fun s h => Option.noConfusion h,
      fun h => ?_, fun s h => ?_⟩
    · simp only [mergeToolCallDelta, hid, hf]
      exact idOfEntry_mergeFunctionStage _ f
    · simp only [Option.some_bind] at h
      simp only [mergeToolCallDelta, hid, hf]
      exact nameOfEntry_stage_none _ f gs he hfn h
    · simp only [Option.some_bind] at h
      simp only [mergeToolCallDelta, hid, hf]
      exact nameOfEntry_stage_some _ f gs he hfn s h
  · refine ⟨fun h => Option.noConfusion h, fun s h => ?_, fun _ => ?_,
      fun s h => Option.noConfusion h⟩
    · obtain rfl : idv = s := by injection h
      simp only [mergeToolCallDelta, hid, hf]
      unfold idOfEntry getStrField
      rw [getField_setField_self _ _ _ he]
      rfl
    · simp only [mergeToolCallDelta, hid, hf]
      exact nameOfEntry_setField_id _ _
  · have he1 : ((Json.obj fs).setField "id" (.str idv)).isObj = true :=
      isObj_setField _ _ _ he
    have hfn1 : ((Json.obj fs).setField "id" (.str idv)).getField
        "function" = some (.obj gs) := by
      rw [getField_fn_setField_id]
      exact hfn
    refine ⟨fun h => Option.noConfusion h, fun s h => ?_, fun h => ?_,
      fun s h => ?_⟩
    · obtain rfl : idv = s := by injection h
      simp only [mergeToolCallDelta, hid, hf]
      rw [idOfEntry_mergeFunctionStage]
      unfold idOfEntry getStrField
      rw [getField_setField_self _ _ _ he]
      rfl
    · simp only [Option.some_bind] at h
      simp only [mergeToolCallDelta, hid, hf]
      rw [nameOfEntry_stage_none _ f gs he1 hfn1 h]
      exact nameOfEntry_setField_id _ _
    · simp only [Option.some_bind] at h
      simp only [mergeToolCallDelta, hid, hf]
      exact nameOfEntry_stage_some _ f gs he1 hfn1 s h

/-- C3 counterexample: two fragments at index 0, the first carrying
id `"call_1"`, the second carrying the *empty* id `""`: the code
overwrites, so the finalized id is `""`, not the first non-empty value
`"call_1"` that the claim requires. -/
theorem claim_C3_counterexample :
    ((List.foldl applyToolCallDelta []
        [Json.obj [("index", Json.num 0), ("id", Json.str "call_1")],
         Json.obj [("index", Json.num 0), ("id", Json.str "")]]).lookup
      (0 : Int)).bind idOfEntry = some "" ∧
    ("" : String) ≠ "call_1" :=
  ⟨by rfl, by decide⟩

/-- Witness for C3: a fragment carrying id `"x"` merged into the default
entry yields id `"x"`. -/
theorem claim_C3_witness :
    idOfEntry (mergeToolCallDelta defaultToolCallEntry
      (Json.obj [("id", Json.str "x")])) = some "x" :=
  (claim_C3 defaultToolCallEntry (Json.obj [("id", Json.str "x")])
    (by decide)).2.1 "x" (by rfl)

/-! ## Byte-level lemmas for large-output handling -/

theorem rustLen_replicate (n : Nat) (c : Char) :
    rustLen (String.mk (List.replicate n c)) = n * c.utf8Size := by
  simp [rustLen, List.map_replicate, List.sum_replicate, smul_eq_mul]

theorem rustLen_mk_cons (c : Char) (cs : List Char) :
    rustLen (String.mk (c :: cs)) = c.utf8Size + rustLen (String.mk cs) := by
  simp [rustLen]

theorem byteTake?_zero (cs : List Char) : byteTake? cs 0 = some [] := by
  cases cs <;> rfl

theorem byteTake?_nil (k : Nat) (hk : k ≠ 0) : byteTake? [] k = none := by
  cases k with
  | zero => exact absurd rfl hk
  | succ k => rfl

theorem byteTake?_cons (c : Char) (cs : List Char) (k : Nat) (hk : k ≠ 0) :
    byteTake? (c :: cs) k =
      if c.utf8Size ≤ k then (byteTake? cs (k - c.utf8Size)).map (c :: ·)
      else none := by
  cases k with
  | zero => exact absurd rfl hk
  | succ k => rfl

theorem byteTake?_replicate_one (c : Char) (h1 : c.utf8Size = 1) :
    ∀ (n k : Nat), k ≤ n →
      byteTake? (List.replicate n c) k = some (List.replicate k c) := by
  intro n
  induction n with
  | zero =>
    intro k hk
    interval_cases k
    exact byteTake?_zero []
  | succ n ih =>
    intro k hk
    cases k with
    | zero => exact byteTake?_zero _
    | succ k =>
      rw [List.replicate_succ, byteTake?_cons c _ (k + 1) (Nat.succ_ne_zero k),
        h1]
      rw [if_pos (by omega)]
      have : k + 1 - 1 = k := by omega
      rw [this, ih k (by omega)]
      rfl

theorem byteTake?_replicate_two_even (c : Char) (h2 : c.utf8Size = 2) :
    ∀ (n m : Nat), m ≤ n →
      byteTake? (List.replicate n c) (2 * m) =
        some (List.replicate m c) := by
  intro n
  induction n with
  | zero =>
    intro m hm
    interval_cases m
    exact byteTake?_zero []
  | succ n ih =>
    intro m hm
    cases m with
    | zero => exact byteTake?_zero _
    | succ m =>
      rw [List.replicate_succ, byteTake?_cons c _ (2 * (m + 1)) (by omega),
        h2, if_pos (by omega)]
      have : 2 * (m + 1) - 2 = 2 * m := by omega
      rw [this, ih m (by omega)]
      rfl

theorem byteTake?_replicate_two_odd (c : Char) (h2 : c.utf8Size = 2) :
    ∀ (n m : Nat), byteTake? (List.replicate n c) (2 * m + 1) = none := by
  intro n
  induction n with
  | zero => intro m; exact byteTake?_nil _ (by omega)
  | succ n ih =>
    intro m
    rw [List.replicate_succ, byteTake?_cons c _ (2 * m + 1) (by omega), h2]
    cases m with
    | zero => rw [if_neg (by omega)]
    | succ m =>
      rw [if_pos (by omega)]
      have : 2 * (m + 1) + 1 - 2 = 2 * m + 1 := by omega
      rw [this, ih m]
      rfl

theorem rustLinesCount_replicate (n : Nat) (c : Char) (hn : n ≠ 0)
    (hc : c ≠ '\n') :
    rustLinesCount (String.mk (List.replicate n c)) = 1 := by
  cases n with
  | zero => exact absurd rfl hn
  | succ n =>
    have hlast : (List.replicate (n + 1) c).getLast? = some c := by
      rw [List.replicate_succ' n c]
      exact List.getLast?_concat _
    have hd : (String.mk (List.replicate (n + 1) c)).data
        = List.replicate (n + 1) c := rfl
    unfold rustLinesCount
    rw [hd, hlast]
    rw [if_neg (by simp)]
    rw [if_neg (by simp [hc])]
    simp [List.count_replicate, hc]

theorem isPrefixChars_self_append (xs ys : List Char) :
    isPrefixChars xs (xs ++ ys) = true := by
  induction xs with
  | nil => rfl
  | cons x xs ih => simp [isPrefixChars, ih]

theorem containsSub_self_append (needle post : List Char) :
    containsSub needle (needle ++ post) = true := by
  cases needle with
  | nil =>
    cases post with
    | nil => rfl
    | cons c cs => simp [containsSub, isPrefixChars]
  | cons n ns =>
    simp [containsSub, isPrefixChars, isPrefixChars_self_append]

theorem containsSub_append_left (needle pre hay : List Char)
    (h : containsSub needle hay = true) :
    containsSub needle (pre ++ hay) = true := by
  induction pre with
  | nil => exact h
  | cons p pre ih => simp [containsSub, ih]

theorem isPrefixChars_length (n : List Char) :
    ∀ h, isPrefixChars n h = true → n.length ≤ h.length := by
  induction n with
  | nil => intro h _; simp
  | cons a as ih =>
    intro h hp
    cases h with
    | nil => simp [isPrefixChars] at hp
    | cons b bs =>
      simp only [isPrefixChars, Bool.and_eq_true] at hp
      simpa using ih bs hp.2

theorem containsSub_length (n : List Char) :
    ∀ h, containsSub n h = true → n.length ≤ h.length := by
  intro h
  induction h with
  | nil => intro hc; simpa using isPrefixChars_length n [] hc
  | cons c cs ih =>
    intro hc
    simp only [containsSub, Bool.or_eq_true] at hc
    rcases hc with hc | hc
    · exact isPrefixChars_length n (c :: cs) hc
    · calc n.length ≤ cs.length := ih hc
        _ ≤ (c :: cs).length := by simp

theorem rustContains_append_left (pre hay needle : String)
    (h : rustContains hay needle = true) :
    rustContains (pre ++ hay) needle = true := by
  unfold rustContains at h ⊢
  rw [String.data_append]
  exact containsSub_append_left _ _ _ h

theorem rustContains_self_append (needle post : String) :
    rustContains (needle ++ post) needle = true := by
  unfold rustContains
  rw [String.data_append]
  exact containsSub_self_append _ _

theorem hlto_success_eq (name output : String) (ts : Nat) (dir : String)
    (p : String) (hbig : LARGE_OUTPUT_THRESHOLD < rustLen output)
    (hslice : byteSlice? output 2000 = some p) :
    handle_large_tool_output name output ts dir none =
      some (successSpillMessage (rustLen output) (rustLinesCount output)
        (tempFilePath dir name ts) p) := by
  unfold handle_large_tool_output
  rw [if_neg (by omega)]
  rw [Nat.min_eq_right (by unfold LARGE_OUTPUT_THRESHOLD at hbig; omega)]
  rw [hslice]
  rfl

theorem successSpillMessage_contains (bc lc : Nat) (path p : String) :
    rustContains (successSpillMessage bc lc path p) (Nat.repr bc) = true ∧
    rustContains (successSpillMessage bc lc path p) (Nat.repr lc) = true ∧
    rustContains (successSpillMessage bc lc path p) path = true ∧
    rustContains (successSpillMessage bc lc path p) p = true := by
  unfold successSpillMessage
  simp only [String.append_assoc]
  refine ⟨?_, ?_, ?_, ?_⟩
  · exact rustContains_append_left _ _ _ (rustContains_self_append _ _)
  · exact rustContains_append_left _ _ _ (rustContains_append_left _ _ _
      (rustContains_append_left _ _ _ (rustContains_self_append _ _)))
  · exact rustContains_append_left _ _ _ (rustContains_append_left _ _ _
      (rustContains_append_left _ _ _ (rustContains_append_left _ _ _
        (rustContains_append_left _ _ _ (rustContains_self_append _ _)))))
  · exact rustContains_append_left _ _ _ (rustContains_append_left _ _ _
      (rustContains_append_left _ _ _ (rustContains_append_left _ _ _
        (rustContains_append_left _ _ _ (rustContains_append_left _ _ _
          (rustContains_append_left _ _ _
            (rustContains_self_append _ _)))))))

/-! ## Claim C4 -/

/-- C4 (amended): a tool output of at most 32768 bytes is returned
unchanged; a larger output whose byte index 2000 is a character boundary
(the code slices *bytes* — see the counterexample for the spec's
"characters" reading) is, on a successful write, turned into the spill
message, which contains the output's byte count, its line count, the
temp-file path, and exactly the first 2000 bytes of the output as the
preview. -/
theorem claim_C4 :
    (∀ (name output : String) (ts : Nat) (dir : String)
        (we : Option String), rustLen output ≤ LARGE_OUTPUT_THRESHOLD →
        handle_large_tool_output name output ts dir we = some output) ∧
    (∀ (name output : String) (ts : Nat) (dir : String) (p : String),
        LARGE_OUTPUT_THRESHOLD < rustLen output →
        byteSlice? output 2000 = some p →
        handle_large_tool_output name output ts dir none =
          some (successSpillMessage (rustLen output)
            (rustLinesCount output) (tempFilePath dir name ts) p) ∧
        rustContains (successSpillMessage (rustLen output)
          (rustLinesCount output) (tempFilePath dir name ts) p)
          (Nat.repr (rustLen output)) = true ∧
        rustContains (successSpillMessage (rustLen output)
          (rustLinesCount output) (tempFilePath dir name ts) p)
          (Nat.repr (rustLinesCount output)) = true ∧
        rustContains (successSpillMessage (rustLen output)
          (rustLinesCount output) (tempFilePath dir name ts) p)
          (tempFilePath dir name ts) = true ∧
        rustContains (successSpillMessage (rustLen output)
          (rustLinesCount output) (tempFilePath dir name ts) p) p =
          true) := by
  refine ⟨?_, ?_⟩
  · intro name output ts dir we hsmall
    unfold handle_large_tool_output
    rw [if_pos hsmall]
  · intro name output ts dir p hbig hslice
    obtain ⟨h1, h2, h3, h4⟩ := successSpillMessage_contains
      (rustLen output) (rustLinesCount output) (tempFilePath dir name ts) p
    exact ⟨hlto_success_eq name output ts dir p hbig hslice, h1, h2, h3, h4⟩

/-- Witness for C4: a 2-byte output is returned unchanged, and a
32769-byte ASCII output is spilled with the first 2000 bytes as
preview. -/
theorem claim_C4_witness :
    handle_large_tool_output "t" "hi" 7 "/tmp" none = some "hi" ∧
    handle_large_tool_output "t" asciiBigOutput 7 "/tmp" none =
      some (successSpillMessage 32769 1 (tempFilePath "/tmp" "t" 7)
        (String.mk (List.replicate 2000 'a'))) := by
  have hlen : rustLen asciiBigOutput = 32769 := by
    unfold asciiBigOutput
    rw [rustLen_replicate]
    rfl
  have hslice : byteSlice? asciiBigOutput 2000 =
      some (String.mk (List.replicate 2000 'a')) := by
    unfold asciiBigOutput byteSlice?
    rw [byteTake?_replicate_one 'a' rfl 32769 2000 (by omega)]
    rfl
  have hlines : rustLinesCount asciiBigOutput = 1 := by
    unfold asciiBigOutput
    exact rustLinesCount_replicate 32769 'a' (by omega) (by decide)
  constructor
  · exact claim_C4.1 "t" "hi" 7 "/tmp" none (by decide)
  · have h := (claim_C4.2 "t" asciiBigOutput 7 "/tmp"
      (String.mk (List.replicate 2000 'a'))
      (by rw [hlen]; decide) hslice).1
    rw [h, hlen, hlines]

/-- C4 counterexample: for a 40000-byte output of 20000 two-byte
characters, the returned message's preview is the first 2000 *bytes*
(1000 characters), and the returned string does not contain the first
2000 *characters* of the output, contrary to the claim's reading. -/
theorem claim_C4_counterexample :
    handle_large_tool_output "t" wideOutput 7 "/tmp" none =
      some (successSpillMessage 40000 1 (tempFilePath "/tmp" "t" 7)
        (String.mk (List.replicate 1000 'é'))) ∧
    rustContains (successSpillMessage 40000 1 (tempFilePath "/tmp" "t" 7)
      (String.mk (List.replicate 1000 'é')))
      (specFirstChars wideOutput 2000) = false := by
  have hlen : rustLen wideOutput = 40000 := by
    unfold wideOutput
    rw [rustLen_replicate]
    rfl
  have hslice : byteSlice? wideOutput 2000 =
      some (String.mk (List.replicate 1000 'é')) := by
    unfold wideOutput byteSlice?
    rw [show (2000 : Nat) = 2 * 1000 from rfl,
      byteTake?_replicate_two_even 'é' rfl 20000 1000 (by omega)]
    rfl
  have hlines : rustLinesCount wideOutput = 1 := by
    unfold wideOutput
    exact rustLinesCount_replicate 20000 'é' (by omega) (by decide)
  constructor
  · have h := hlto_success_eq "t" wideOutput 7 "/tmp"
      (String.mk (List.replicate 1000 'é')) (by rw [hlen]; decide) hslice
    rw [h, hlen, hlines]
  · have hneedle : (specFirstChars wideOutput 2000).data.length = 2000 := by
      show ((List.replicate 20000 'é').take 2000).length = 2000
      rw [List.take_replicate, List.length_replicate,
        Nat.min_eq_left (by norm_num)]
    have hhay : (successSpillMessage 40000 1 (tempFilePath "/tmp" "t" 7)
        (String.mk (List.replicate 1000 'é'))).data.length < 2000 := by
      simp only [successSpillMessage, tempFilePath, String.data_append,
        List.length_append]
      rw [show (Nat.repr 40000).data.length = 5 from rfl,
        show (Nat.repr 1).data.length = 1 from rfl,
        show (Nat.repr 7).data.length = 1 from rfl,
        List.length_replicate]
      decide
    rcases hb : rustContains (successSpillMessage 40000 1
        (tempFilePath "/tmp" "t" 7) (String.mk (List.replicate 1000 'é')))
        (specFirstChars wideOutput 2000) with _ | _
    · rfl
    · exfalso
      have := containsSub_length _ _ hb
      omega

/-! ## Claim C5 -/

/-- C5: the claim that the write-failure fallback never panics for any
output contents (including multi-byte UTF-8) fails on the code: for a
32769-byte output whose byte index 32768 falls inside a two-byte
character, the fallback's slice `&output[..32768]` panics (modelled by
`none`). -/
theorem claim_C5 :
    handle_large_tool_output "t" panicOutput 7 "/tmp" (some "disk full") =
      none := by
  have hlen : rustLen panicOutput = 32769 := by
    unfold panicOutput
    rw [rustLen_mk_cons, rustLen_replicate]
    rfl
  unfold handle_large_tool_output
  rw [if_neg (by rw [hlen]; decide)]
  have hslice : byteSlice? panicOutput
      (min (rustLen panicOutput) LARGE_OUTPUT_THRESHOLD) = none := by
    rw [hlen]
    unfold panicOutput byteSlice? LARGE_OUTPUT_THRESHOLD
    rw [Nat.min_eq_right (by omega)]
    rw [byteTake?_cons 'a' _ 32768 (by omega)]
    rw [if_pos (by decide)]
    rw [show (32768 : Nat) - Char.utf8Size 'a' = 2 * 16383 + 1 from rfl]
    rw [byteTake?_replicate_two_odd 'é' rfl 16384 16383]
    rfl
  rw [hslice]
  rfl

/-! ## Lemmas about save_conversation -/

theorem modifyMessageAt_length (msgs : List Message) (i : Nat)
    (msgs2 : List Message) (h : modifyMessageAt msgs i = some msgs2) :
    msgs2.length = msgs.length := by
  unfold modifyMessageAt at h
  rcases hm : msgs[i]? with _ | m <;> simp only [hm] at h
  · injection h with h
    rw [← h]
  · rcases ht : truncateMessageContent m with _ | m2 <;>
      simp only [ht, Option.map_none', Option.map_some'] at h
    · cases h
    · injection h with h
      rw [← h, List.length_set]

theorem modifyMessageAt_getElem_ne (msgs : List Message) (i j : Nat)
    (msgs2 : List Message) (hne : i ≠ j)
    (h : modifyMessageAt msgs i = some msgs2) : msgs2[j]? = msgs[j]? := by
  unfold modifyMessageAt at h
  rcases hm : msgs[i]? with _ | m <;> simp only [hm] at h
  · injection h with h
    rw [← h]
  · rcases ht : truncateMessageContent m with _ | m2 <;>
      simp only [ht, Option.map_none', Option.map_some'] at h
    · cases h
    · injection h with h
      rw [← h, List.getElem?_set_ne hne]

theorem modifyMessageAt_nonstr (msgs : List Message) (i : Nat)
    (m : Message) (msgs2 : List Message)
    (h : modifyMessageAt msgs i = some msgs2)
    (hm : msgs[i]? = some m) (hs : m.content.asStr = none) :
    msgs2[i]? = some m := by
  have hlt : i < msgs.length := by
    by_contra hlt
    rw [List.getElem?_eq_none (Nat.le_of_not_lt hlt)] at hm
    cases hm
  unfold modifyMessageAt at h
  rw [hm] at h
  simp only [truncateMessageContent, hs, Option.map_some'] at h
  injection h with h
  rw [← h, List.getElem?_set_eq_of_lt _ hlt]

theorem truncateAtIndices_pair (msgs : List Message) (a b : Nat)
    (res : List Message) (h : truncateAtIndices msgs [a, b] = some res) :
    ∃ ms2, modifyMessageAt msgs a = some ms2 ∧
      modifyMessageAt ms2 b = some res := by
  unfold truncateAtIndices at h
  rcases h1 : modifyMessageAt msgs a with _ | ms2 <;> simp only [h1] at h
  · cases h
  · unfold truncateAtIndices at h
    rcases h2 : modifyMessageAt ms2 b with _ | ms3 <;> simp only [h2] at h
    · cases h
    · unfold truncateAtIndices at h
      have hres : ms3 = res := by injection h
      exact ⟨ms2, rfl, h2.trans (congrArg some hres)⟩

theorem save_conversation_cases (st : ConversationState) (confirm : Bool)
    (mem per : ConversationState)
    (h : save_conversation st confirm = some (mem, per)) :
    mem = st ∧
      (per = st ∨
        (2 ≤ st.messages.length ∧ ∃ ms2,
          modifyMessageAt st.messages (st.messages.length - 2) = some ms2 ∧
          modifyMessageAt ms2 (st.messages.length - 1) =
            some per.messages ∧
          per.model = st.model)) := by
  unfold save_conversation at h
  by_cases h1 : 2 ≤ st.messages.length
  · simp only [if_pos h1] at h
    by_cases h2 : ([st.messages.length - 2, st.messages.length - 1].any
        (shouldTruncateAt st.messages)) = true
    · simp only [if_pos h2] at h
      by_cases h3 : confirm = true
      · simp only [if_pos h3] at h
        rcases htr : truncateAtIndices st.messages
            [st.messages.length - 2, st.messages.length - 1] with _ | ms3 <;>
          simp only [htr] at h
        · cases h
        · injection h with h
          injection h with hm hp
          obtain ⟨ms2, hs1, hs2⟩ := truncateAtIndices_pair _ _ _ _ htr
          refine ⟨hm.symm, Or.inr ⟨h1, ms2, hs1, ?_, ?_⟩⟩
          · rw [← hp]
            exact hs2
          · rw [← hp]
      · simp only [if_neg h3] at h
        injection h with h
        injection h with hm hp
        exact ⟨hm.symm, Or.inl hp.symm⟩
    · simp only [if_neg h2] at h
      injection h with h
      injection h with hm hp
      exact ⟨hm.symm, Or.inl hp.symm⟩
  · simp only [if_neg h1] at h
    injection h with h
    injection h with hm hp
    exact ⟨hm.symm, Or.inl hp.symm⟩

/-! ## Claim C6 -/

/-- C6: `save_conversation` never changes the in-memory conversation
(the returned in-memory state equals the input), and the persisted copy
differs from the input at most in the last two messages: it has the same
model and length, and every message below index `len - 2` is serialized
unmodified. -/
theorem claim_C6 (st : ConversationState) (confirm : Bool)
    (mem per : ConversationState)
    (h : save_conversation st confirm = some (mem, per)) :
    mem = st ∧ per.model = st.model ∧
      per.messages.length = st.messages.length ∧
      ∀ i, i + 2 < st.messages.length →
        per.messages[i]? = st.messages[i]? := by
  obtain ⟨hm, hcase⟩ := save_conversation_cases st confirm mem per h
  rcases hcase with rfl | ⟨h2, ms2, hs1, hs2, hmodel⟩
  · exact ⟨hm, rfl, rfl, fun i _ => rfl⟩
  · refine ⟨hm, hmodel, ?_, ?_⟩
    · exact (modifyMessageAt_length _ _ _ hs2).trans
        (modifyMessageAt_length _ _ _ hs1)
    · intro i hi
      rw [modifyMessageAt_getElem_ne ms2 _ i _ (by omega) hs2,
        modifyMessageAt_getElem_ne st.messages _ i _ (by omega) hs1]

/-- Witness for C6 on a concrete three-message conversation. -/
theorem claim_C6_witness :
    smallConvo.messages[0]? = smallConvo.messages[0]? :=
  (claim_C6 smallConvo true smallConvo smallConvo rfl).2.2.2 0 (by
    show 0 + 2 < 3
    norm_num)

/-! ## Claim C10 -/

/-- C10: a message whose content is not a JSON string is serialized to
the transcript unmodified regardless of its size and position — the
truncation pass only ever rewrites string contents. -/
theorem claim_C10 (st : ConversationState) (confirm : Bool)
    (mem per : ConversationState) (i : Nat) (m : Message)
    (h : save_conversation st confirm = some (mem, per))
    (hm : st.messages[i]? = some m) (hs : m.content.asStr = none) :
    per.messages[i]? = some m := by
  obtain ⟨_, hcase⟩ := save_conversation_cases st confirm mem per h
  rcases hcase with rfl | ⟨h2, ms2, hs1, hs2, _⟩
  · exact hm
  · by_cases hia : i = st.messages.length - 2
    · subst hia
      have h1 := modifyMessageAt_nonstr st.messages _ m ms2 hs1 hm hs
      rw [modifyMessageAt_getElem_ne ms2 _ _ _ (by omega) hs2]
      exact h1
    · by_cases hib : i = st.messages.length - 1
      · subst hib
        have hA : ms2[st.messages.length - 1]? = some m := by
          rw [modifyMessageAt_getElem_ne st.messages _ _ _ (by omega) hs1]
          exact hm
        exact modifyMessageAt_nonstr ms2 _ m per.messages hs2 hA hs
      · rw [modifyMessageAt_getElem_ne ms2 _ _ _
            (fun hh => hib hh.symm) hs2,
          modifyMessageAt_getElem_ne st.messages _ _ _
            (fun hh => hia hh.symm) hs1]
        exact hm

/-- Witness for C10 on a conversation whose only message carries an
object (tool_calls) content. -/
theorem claim_C10_witness :
    objConvo.messages[0]? =
      some ⟨"assistant", Json.obj [("tool_calls", Json.arr [])]⟩ :=
  claim_C10 objConvo true objConvo objConvo 0
    ⟨"assistant", Json.obj [("tool_calls", Json.arr [])]⟩ rfl rfl rfl

/-! ## Claim C7 -/

/-- C7: a `data: ` line whose payload is neither the `[DONE]` sentinel
nor parseable JSON is silently skipped: the step leaves the stream state
unchanged, and processing any line list containing that line yields
exactly the result of processing the list with the line removed, so the
text and tool calls of all well-formed units are still returned. -/
theorem claim_C7 (d : List (Int × Json) → List (Int × Json)) (g : Bool)
    (p : String → Option Json) (line : String)
    (hdata : isPrefixChars "data: ".data line.data = true)
    (hnd : rustTrim (String.mk (line.data.drop 6)) ≠ "[DONE]")
    (hparse : p (rustTrim (String.mk (line.data.drop 6))) = none) :
    (∀ st, stepLine d g p st line = .inl st) ∧
    (∀ st pre post, processLines d g p st (pre ++ line :: post) =
      processLines d g p st (pre ++ post)) := by
  have hstep : ∀ st, stepLine d g p st line = .inl st := by
    intro st
    simp only [stepLine]
    rw [if_pos hdata, if_neg hnd]
    by_cases hemp : rustTrim (String.mk (line.data.drop 6)) = ""
    · rw [if_pos hemp]
    · rw [if_neg hemp, hparse]
  refine ⟨hstep, ?_⟩
  intro st pre post
  rw [processLines_append, processLines_append]
  rcases hsplit : processLines d g p st pre with st2 | r
  · simp only [processLines, hstep st2]
  · rfl

/-- Witness for C7: the malformed line `data: oops` is skipped. -/
theorem claim_C7_witness :
    processLines id false (fun _ => none) (initialStreamState false)
      ["data: oops\n"] =
      processLines id false (fun _ => none) (initialStreamState false)
        [] :=
  (claim_C7 id false (fun _ => none) "data: oops\n" (by decide)
    (by decide) rfl).2 (initialStreamState false) [] []

/-! ## Claim C8 -/

/-- C8: a finalized tool call whose name is not registered does not fail
the turn: the loop appends a `tool`-role message keyed by the originating
call id whose content is the string `"Error: Unknown tool: <name>"`
(prefixed `Error: `), and processing continues with the remaining
calls. -/
theorem claim_C8 (reg : ToolRegistry) (parse : String → Option Json)
    (ts : Nat) (dir : String) (werr : Option String) (tc : Json)
    (rest : List Json) (msgs : List Message)
    (hmiss : reg.get (toolNameOf tc) = none) :
    processToolCall reg parse ts dir werr tc =
      some ⟨"tool", .obj [("tool_call_id", .str (toolIdOf tc)),
        ("content",
         .str ("Error: " ++ ("Unknown tool: " ++ toolNameOf tc)))]⟩ ∧
    executeToolCalls reg parse ts dir werr (tc :: rest) msgs =
      executeToolCalls reg parse ts dir werr rest
        (msgs ++ [⟨"tool", .obj [("tool_call_id", .str (toolIdOf tc)),
          ("content",
           .str ("Error: " ++ ("Unknown tool: " ++ toolNameOf tc)))]⟩]) ∧
    isPrefixChars "Error: ".data
      ("Error: " ++ ("Unknown tool: " ++ toolNameOf tc)).data = true := by
  have hp : processToolCall reg parse ts dir werr tc =
      some ⟨"tool", .obj [("tool_call_id", .str (toolIdOf tc)),
        ("content",
         .str ("Error: " ++ ("Unknown tool: " ++ toolNameOf tc)))]⟩ := by
    simp only [processToolCall, ToolRegistry.execute, hmiss]
    rfl
  refine ⟨hp, ?_, ?_⟩
  · simp only [executeToolCalls, hp]
  · rw [String.data_append]
    exact isPrefixChars_self_append _ _

/-- Witness for C8: an empty registry turns the call `nope` into an
`Error: Unknown tool: nope` tool message. -/
theorem claim_C8_witness :
    processToolCall ⟨[]⟩ (fun _ => none) 7 "/tmp" none
      (Json.obj [("id", Json.str "c1"),
        ("function", Json.obj [("name", Json.str "nope")])]) =
      some ⟨"tool", Json.obj [("tool_call_id", Json.str "c1"),
        ("content", Json.str ("Error: " ++ ("Unknown tool: " ++
          toolNameOf (Json.obj [("id", Json.str "c1"),
            ("function", Json.obj [("name", Json.str "nope")])]))))]⟩ :=
  (claim_C8 ⟨[]⟩ (fun _ => none) 7 "/tmp" none
    (Json.obj [("id", Json.str "c1"),
      ("function", Json.obj [("name", Json.str "nope")])]) [] []
    rfl).1

/-! ## Claim C9 -/

/-- C9: the claim fails on the code for the default model: the predicate
`is_reasoning_model` (`contains "o" && contains "-mini" && host contains
"openai" || contains "gpt-5"`) is *true* for `"gpt-4o-mini"` on
`"api.openai.com"`, so the request body omits `max_tokens` and
`temperature` for this non-reasoning model, while the claim (and the
code's own `o* mini` comment) expects them to be present; a model such
as `"gpt-4.1"` does get both fields. -/
theorem claim_C9 :
    is_reasoning_model "gpt-4o-mini" "api.openai.com" = true ∧
    (build_openai_body "gpt-4o-mini" "api.openai.com" "openai" (.arr [])
      (.num 4096) (.num 1) "u" none).getField "max_tokens" = none ∧
    (build_openai_body "gpt-4o-mini" "api.openai.com" "openai" (.arr [])
      (.num 4096) (.num 1) "u" none).getField "temperature" = none ∧
    (build_openai_body "gpt-4.1" "api.openai.com" "openai" (.arr [])
      (.num 4096) (.num 1) "u" none).getField "max_tokens" =
        some (.num 4096) ∧
    (build_openai_body "gpt-4.1" "api.openai.com" "openai" (.arr [])
      (.num 4096) (.num 1) "u" none).getField "temperature" =
        some (.num 1) :=
  ⟨rfl, rfl, rfl, rfl, rfl⟩
